import Mathlib

/-!
# Verification of the Pyrra API server (`cmd/api/main.go`)

A shallow embedding of the query cache, the time alignment, the status
arithmetic, the range transforms and the multi burn rate alert evaluator of
`cmd/api/main.go`, followed by theorems about them.

Conventions of the embedding:

* `time.Time` is an integer number of nanoseconds since the zero time and
  `time.Duration` an integer number of nanoseconds; `model.Time` is an integer
  number of milliseconds since the Unix epoch. Integers are unbounded.
* `float64` is IEEE 754 binary64 with round to nearest, ties to even (`F64`).
* A Go `error` is its message. A run time panic is the absence of a result.
* Calls that leave the process (the objective backend, the Prometheus API, the
  cache library's admission policy, the wall clock) are arguments: a handler
  receives the outcome of each call it makes, in the order it makes them.
-/

namespace Pyrra

/-! ## Go `float64`: IEEE 754 binary64, round to nearest, ties to even -/

/-- A `float64` value: not-a-number, a signed infinity, or the finite value
`(-1)^neg * m * 2^e`. Finite values are kept canonical: `m < 2^53`,
`-1074 ≤ e ≤ 971`, and `m < 2^52` only when `e = -1074` (subnormals and the
two zeros). -/
inductive F64 where
  | nan : F64
  | inf (neg : Bool) : F64
  | fin (neg : Bool) (m : Nat) (e : Int) : F64
  deriving DecidableEq, Repr

namespace F64

/-- Number of binary digits of `n`, with explicit fuel. -/
def bitLenAux : Nat → Nat → Nat
  | 0, _ => 0
  | fuel + 1, n => if n = 0 then 0 else bitLenAux fuel (n / 2) + 1

/-- Number of binary digits of `n` (`0` for `0`). -/
def bitLen (n : Nat) : Nat := bitLenAux n n

/-- The fraction `n / d` divided by `2^e`, as a numerator and a denominator. -/
def scale (n d : Nat) (e : Int) : Nat × Nat :=
  if 0 ≤ e then (n, d * 2 ^ e.toNat) else (n * 2 ^ (-e).toNat, d)

/-- The exponent at which `n / d` has a 53-bit integer part, not below the
subnormal exponent `-1074`. -/
def pickExp (n d : Nat) : Int :=
  let e1 : Int := max ((bitLen n : Int) - (bitLen d : Int) - 52) (-1074)
  let s := scale n d e1
  if s.1 / s.2 < 2 ^ 52 ∧ -1074 < e1 then e1 - 1 else e1

/-- Round the exact non-negative fraction `n / d` (`d > 0`) with sign `neg`
to the nearest `float64`, ties to even, overflowing to infinity. -/
def round (neg : Bool) (n d : Nat) : F64 :=
  if n = 0 then fin neg 0 (-1074)
  else
    let e := pickExp n d
    let s := scale n d e
    let q := s.1 / s.2
    let r := s.1 % s.2
    let m := if s.2 < 2 * r ∨ (2 * r = s.2 ∧ q % 2 = 1) then q + 1 else q
    let me : Nat × Int := if m = 2 ^ 53 then (2 ^ 52, e + 1) else (m, e)
    if 971 < me.2 then inf neg else fin neg me.1 me.2

/-- Round the exact value `(-1)^neg * n * 2^e`. -/
def roundDyadic (neg : Bool) (n : Nat) (e : Int) : F64 :=
  if 0 ≤ e then round neg (n * 2 ^ e.toNat) 1 else round neg n (2 ^ (-e).toNat)

/-- The conversion `float64(i)` of an integer. -/
def ofInt (i : Int) : F64 := round (decide (i < 0)) i.natAbs 1

/-- The `float64` denoted by the decimal constant `n / d`. -/
def ofFrac (n d : Nat) : F64 := round false n d

/-- Positive zero, the zero value of the type. -/
def zero : F64 := fin false 0 (-1074)

/-- Unary minus. -/
def neg : F64 → F64
  | nan => nan
  | inf s => inf (!s)
  | fin s m e => fin (!s) m e

/-- The sum `a + b`. -/
def add : F64 → F64 → F64
  | nan, _ => nan
  | _, nan => nan
  | inf s, inf t => if s = t then inf s else nan
  | inf s, fin _ _ _ => inf s
  | fin _ _ _, inf t => inf t
  | fin s m e, fin t k f =>
    let g := min e f
    let x : Int := (if s then -1 else 1) * (m * 2 ^ (e - g).toNat : Nat)
    let y : Int := (if t then -1 else 1) * (k * 2 ^ (f - g).toNat : Nat)
    let z := x + y
    if z = 0 then fin (s && t) 0 (-1074)
    else roundDyadic (decide (z < 0)) z.natAbs g

/-- The difference `a - b`. -/
def sub (a b : F64) : F64 := add a (neg b)

/-- The product `a * b`. -/
def mul : F64 → F64 → F64
  | nan, _ => nan
  | _, nan => nan
  | inf s, inf t => inf (xor s t)
  | inf s, fin t k _ => if k = 0 then nan else inf (xor s t)
  | fin s m _, inf t => if m = 0 then nan else inf (xor s t)
  | fin s m e, fin t k f => roundDyadic (xor s t) (m * k) (e + f)

/-- The quotient `a / b`. Division by zero gives an infinity, or not-a-number
for `0 / 0`; it never fails. -/
def div : F64 → F64 → F64
  | nan, _ => nan
  | _, nan => nan
  | inf _, inf _ => nan
  | inf s, fin t _ _ => inf (xor s t)
  | fin s _ _, inf t => fin (xor s t) 0 (-1074)
  | fin s m e, fin t k f =>
    if k = 0 then (if m = 0 then nan else inf (xor s t))
    else
      let p := scale m k (f - e)
      round (xor s t) p.1 p.2

/-- The comparison `a == b`: not-a-number equals nothing, the two zeros are
equal. -/
def beq : F64 → F64 → Bool
  | nan, _ => false
  | _, nan => false
  | inf s, inf t => s == t
  | fin s m e, fin t k f => (m == 0 && k == 0) || (s == t && m == k && e == f)
  | _, _ => false

end F64

/-! ## Time -/

/-- A `time.Time`: nanoseconds since the zero time. -/
abbrev Time := Int

/-- A `time.Duration`: nanoseconds. -/
abbrev Duration := Int

/-- The duration `time.Minute`. -/
def Minute : Duration := 60 * 1000000000

/-- The method `Time.Round` of the standard library: the nearest multiple of
`d` since the zero time, halfway values rounding up; `t` itself when
`d ≤ 0`. The library computes `r = t mod d` with `0 ≤ r < d` and tests
`r + r < d`. -/
def Time.Round (t : Time) (d : Duration) : Time :=
  if d ≤ 0 then t
  else
    let r := t % d
    if r + r < d then t - r else t + (d - r)

/-- The function `RoundUp` (main.go 127-133). -/
def RoundUp (t : Time) (d : Duration) : Time :=
  let n := Time.Round t d
  if n < t then n + d else n

/-- The method `Duration.Milliseconds`: integer division truncating toward
zero. -/
def Duration.Milliseconds (d : Duration) : Int := Int.tdiv d 1000000

/-! ## The Prometheus data model (`github.com/prometheus/common/model`) -/

/-- A Go `error`, by its message. -/
abbrev Error := String

/-- A `model.LabelSet` (a `model.Metric` is one): label names with values. -/
abbrev LabelSet := List (String × String)

/-- The map index `ls[name]`: the value of the label, the empty string when
the label is absent. -/
def LabelSet.index (ls : LabelSet) (name : String) : String :=
  (ls.lookup name).getD ""

/-- The method `model.Time.Unix`: milliseconds to seconds, truncating toward
zero. -/
def ModelTime.Unix (t : Int) : Int := Int.tdiv t 1000

/-- A `model.Sample`: one labelled value of an instant vector. -/
structure Sample where
  Metric : LabelSet
  Value : F64
  Timestamp : Int
  deriving DecidableEq

/-- A `model.SamplePair`: one point of a series. -/
structure SamplePair where
  Timestamp : Int
  Value : F64
  deriving DecidableEq

/-- A `model.SampleStream`: one labelled series of a range matrix. -/
structure SampleStream where
  Metric : LabelSet
  Values : List SamplePair
  deriving DecidableEq

/-- A `model.Value`: the result of a query. -/
inductive Value where
  | scalar (v : F64) (t : Int) : Value
  | vector (vec : List Sample) : Value
  | matrix (m : List SampleStream) : Value
  | string (s : String) (t : Int) : Value
  deriving DecidableEq

/-- A `prometheusv1.Range`. -/
structure Range where
  Start : Time
  End : Time
  Step : Duration
  deriving DecidableEq

/-! ## The cache (`github.com/dgraph-io/ristretto`)

The library promises that `Get` never returns an expired or wrongly keyed
entry and that `SetWithTTL` may refuse an insert or evict other entries. -/

/-- One stored entry. -/
structure Item where
  key : Nat
  value : Value
  cost : Int
  expiration : Time

/-- The contents of a `ristretto.Cache`. -/
abbrev Cache := List Item

/-- The decision of the admission policy for one insert: whether the entry is
stored, and which keys are evicted to make room. -/
structure Admission where
  admitted : Bool
  victims : List Nat

/-- The method `Cache.Get` at wall clock `now`: the value stored under `key`,
unless its expiration has passed. -/
def Cache.Get (c : Cache) (key : Nat) (now : Time) : Option Value :=
  match c.find? (fun it => it.key == key) with
  | some it => if it.expiration < now then none else some it.value
  | none => none

/-- The method `Cache.SetWithTTL` at wall clock `now`: when admitted, the entry
replaces whatever was stored under `key` and expires `ttl` later. Returns the
new contents and whether the entry was stored. -/
def Cache.SetWithTTL (c : Cache) (key : Nat) (value : Value) (cost : Int)
    (ttl : Duration) (now : Time) (adm : Admission) : Cache × Bool :=
  if adm.admitted then
    (⟨key, value, cost, now + ttl⟩ ::
      c.filter (fun it => it.key != key && !adm.victims.contains it.key), true)
  else (c, false)

/-! ## `promCache` (main.go 135-178) -/

/-- One invocation of the Prometheus API. -/
inductive ApiCall where
  | Query (query : String) (ts : Time) : ApiCall
  | QueryRange (query : String) (r : Range) : ApiCall
  deriving DecidableEq

/-- The metrics backend `prometheusv1.API`: each answer may depend on the
invocations made before it. Warnings are dropped by every caller. -/
structure API where
  Query : List ApiCall → String → Time → Except Error Value
  QueryRange : List ApiCall → String → Range → Except Error Value

/-- The struct `promCache`, with the record `calls` of the backend invocations
made so far. -/
structure promCache where
  api : API
  cache : Cache
  calls : List ApiCall

/-- The surroundings of one call: the wall clock and the admission decision
the cache library takes if the call inserts. -/
structure Env where
  now : Time
  adm : Admission

/-- The method `promCache.Query` (main.go 140-158). `xxh` is the 64-bit
`xxhash` digest of a string. Returns the value or the error, and the new
state. -/
def promCache.Query (xxh : String → Nat) (p : promCache) (env : Env)
    (query : String) (ts : Time) : Except Error Value × promCache :=
  let hash := xxh query
  match p.cache.Get hash env.now with
  | some value => (.ok value, p)
  | none =>
    match p.api.Query p.calls query ts with
    | .error err => (.error err, ⟨p.api, p.cache, p.calls ++ [.Query query ts]⟩)
    | .ok value =>
      (.ok value,
        ⟨p.api, (p.cache.SetWithTTL hash value 10 (5 * Minute) env.now env.adm).1,
          p.calls ++ [.Query query ts]⟩)

/-- The method `promCache.QueryRange` (main.go 160-178). -/
def promCache.QueryRange (xxh : String → Nat) (p : promCache) (env : Env)
    (query : String) (r : Range) : Except Error Value × promCache :=
  let hash := xxh query
  match p.cache.Get hash env.now with
  | some value => (.ok value, p)
  | none =>
    match p.api.QueryRange p.calls query r with
    | .error err => (.error err, ⟨p.api, p.cache, p.calls ++ [.QueryRange query r]⟩)
    | .ok value =>
      (.ok value,
        ⟨p.api, (p.cache.SetWithTTL hash value 100 (10 * Minute) env.now env.adm).1,
          p.calls ++ [.QueryRange query r]⟩)

/-! ## The handlers of `ObjectivesServer` (main.go 180-567)

Each handler receives the outcome of `o.backend.GetObjective(name)` and the
outcome of every `o.promAPI` call it makes. A handler returns the
`openapi.ImplResponse` and the error of the Go function. -/

/-- The struct `openapi.ImplResponse`: a status code and a body, absent when
the Go code leaves it `nil`. -/
structure ImplResponse (β : Type) where
  Code : Nat
  Body : Option β

/-- The status `http.StatusOK`. -/
def StatusOK : Nat := 200

/-- The status `http.StatusNotFound`. -/
def StatusNotFound : Nat := 404

/-- The status `http.StatusInternalServerError`. -/
def StatusInternalServerError : Nat := 500

/-- The burn rate rule `slo.MultiBurnrateAlert`, by the fields main.go
reads. -/
structure slo.MultiBurnrateAlert where
  Severity : String
  Short : Duration
  Long : Duration
  For : Duration
  Factor : F64
  QueryShort : String
  QueryLong : String

/-- The objective `slo.Objective`, by what main.go reads of it; `Alerts` is the
result of the method `objective.Alerts()`. -/
structure slo.Objective where
  Name : String
  Target : F64
  Window : Duration
  Alerts : Except Error (List slo.MultiBurnrateAlert)

/-- The struct `openapi.Burnrate`. -/
structure openapi.Burnrate where
  Window : Int
  Current : F64
  Query : String

/-- The struct `openapi.MultiBurnrateAlert`. -/
structure openapi.MultiBurnrateAlert where
  Severity : String
  For : Int
  Factor : F64
  Short : openapi.Burnrate
  Long : openapi.Burnrate
  State : String

/-- The struct `openapi.ErrorBudgetPair`. -/
structure openapi.ErrorBudgetPair where
  T : Int
  V : F64

/-- The struct `openapi.ObjectiveStatusAvailability`. -/
structure openapi.ObjectiveStatusAvailability where
  Percentage : F64
  Total : F64
  Errors : F64

/-- The struct `openapi.ObjectiveStatusBudget`. -/
structure openapi.ObjectiveStatusBudget where
  Total : F64
  Max : F64
  Remaining : F64

/-- The struct `openapi.ObjectiveStatus`. -/
structure openapi.ObjectiveStatus where
  Availability : openapi.ObjectiveStatusAvailability
  Budget : openapi.ObjectiveStatusBudget

/-- The struct `openapi.QueryRange`. -/
structure openapi.QueryRange where
  Labels : List String
  Values : List (List F64)

/-- The slice assignment `xs[i] = v`: absent when `i` is out of range, where Go
panics. -/
def setAt? {α : Type} (xs : List α) (i : Nat) (v : α) : Option (List α) :=
  if i < xs.length then some (xs.set i v) else none

/-! ### `GetObjectiveStatus` (main.go 214-254) -/

/-- The loop `for _, v := range vec` of lines 232-234: each sample overwrites
the running total. -/
def statusTotal (status : openapi.ObjectiveStatus) (vec : List Sample) :
    openapi.ObjectiveStatus :=
  vec.foldl (fun st v => ⟨⟨st.Availability.Percentage, v.Value,
    st.Availability.Errors⟩, st.Budget⟩) status

/-- The loop `for _, v := range value.(model.Vector)` of lines 240-242: each
sample overwrites the running error count. -/
def statusErrors (status : openapi.ObjectiveStatus) (vec : List Sample) :
    openapi.ObjectiveStatus :=
  vec.foldl (fun st v => ⟨⟨st.Availability.Percentage, st.Availability.Total,
    v.Value⟩, st.Budget⟩) status

/-- The arithmetic of lines 244-248. -/
def statusArith (status : openapi.ObjectiveStatus) (target : F64) :
    openapi.ObjectiveStatus :=
  let percentage :=
    F64.sub (F64.ofInt 1) (F64.div status.Availability.Errors status.Availability.Total)
  let total := F64.sub (F64.ofInt 1) target
  let remaining :=
    F64.div
      (F64.sub total (F64.div status.Availability.Errors status.Availability.Total))
      total
  let max := F64.mul total status.Availability.Total
  ⟨⟨percentage, status.Availability.Total, status.Availability.Errors⟩,
    ⟨total, max, remaining⟩⟩

/-- The handler `GetObjectiveStatus`, given the outcomes of the objective
lookup and of the two instant queries (total, then errors). The result is
absent when the unchecked assertion `value.(model.Vector)` panics. -/
def GetObjectiveStatus (objective : Except Error slo.Objective)
    (total errors : Except Error Value) :
    Option (ImplResponse openapi.ObjectiveStatus × Option Error) :=
  match objective with
  | .error err => some (⟨StatusInternalServerError, none⟩, some err)
  | .ok objective =>
    let status : openapi.ObjectiveStatus :=
      ⟨⟨F64.zero, F64.zero, F64.zero⟩, ⟨F64.zero, F64.zero, F64.zero⟩⟩
    match total with
    | .error err => some (⟨StatusInternalServerError, none⟩, some err)
    | .ok (.vector vec) =>
      let status := statusTotal status vec
      match errors with
      | .error err => some (⟨StatusInternalServerError, none⟩, some err)
      | .ok (.vector vec2) =>
        let status := statusErrors status vec2
        some (⟨StatusOK, some (statusArith status objective.Target)⟩, none)
      | .ok _ => none
    | .ok _ => none

/-! ### `GetObjectiveErrorBudget` (main.go 256-305) -/

/-- The inner loop of lines 296-298 from index `i` on: `pairs[i] = ...` for
each sample of one series. -/
def budgetSeries : Nat → List SamplePair → List openapi.ErrorBudgetPair →
    Option (List openapi.ErrorBudgetPair)
  | _, [], pairs => some pairs
  | i, pair :: rest, pairs =>
    match setAt? pairs i ⟨ModelTime.Unix pair.Timestamp, pair.Value⟩ with
    | none => none
    | some pairs => budgetSeries (i + 1) rest pairs

/-- The outer loop `for _, m := range matrix` of lines 295-299. -/
def budgetMatrix : List SampleStream → List openapi.ErrorBudgetPair →
    Option (List openapi.ErrorBudgetPair)
  | [], pairs => some pairs
  | m :: rest, pairs =>
    match budgetSeries 0 m.Values pairs with
    | none => none
    | some pairs => budgetMatrix rest pairs

/-- The handler `GetObjectiveErrorBudget`, given the outcomes of the objective
lookup and of the range query. The result is absent when an index is out of
range. -/
def GetObjectiveErrorBudget (objective : Except Error slo.Objective)
    (queried : Except Error Value) :
    Option (ImplResponse (List openapi.ErrorBudgetPair) × Option Error) :=
  match objective with
  | .error err => some (⟨StatusInternalServerError, none⟩, some err)
  | .ok _ =>
    match queried with
    | .error err => some (⟨StatusInternalServerError, none⟩, some err)
    | .ok (.matrix matrix) =>
      if matrix.length ≠ 1 then some (⟨StatusNotFound, none⟩, some "no data")
      else
        match matrix.head? with
        | none => none
        | some first =>
          let pairs : List openapi.ErrorBudgetPair :=
            List.replicate first.Values.length ⟨0, F64.zero⟩
          match budgetMatrix matrix pairs with
          | none => none
          | some pairs => some (⟨StatusOK, some pairs⟩, none)
    | .ok _ => some (⟨StatusInternalServerError, none⟩, some "no matrix returned")

/-! ### `GetMultiBurnrateAlerts` (main.go 307-437) -/

/-- The constant `alertstateInactive`. -/
def alertstateInactive : String := "inactive"

/-- The constant `alertstatePending`. -/
def alertstatePending : String := "pending"

/-- The constant `alertstateFiring`. -/
def alertstateFiring : String := "firing"

/-- The outcomes of the three instant queries of one rule, one per
goroutine. -/
structure RuleQueries where
  short : Except Error Value
  long : Except Error Value
  state : Except Error Value

/-- The goroutine of lines 341-359 (and its copy, lines 361-379), given the
outcome of its query: the burn rate record it leaves behind. -/
def burnrateTask (b : openapi.Burnrate) (queried : Except Error Value) :
    openapi.Burnrate :=
  match queried with
  | .error _ => b
  | .ok (.vector vec) =>
    if vec.length ≠ 1 then b
    else
      match vec.head? with
      | none => b
      | some sample => ⟨b.Window, sample.Value, b.Query⟩
  | .ok _ => b

/-- The goroutine of lines 383-419, given the outcome of its query: the value
it leaves in `alertstate`. -/
def alertstateTask (queried : Except Error Value) : String :=
  let alertstate := alertstateInactive
  match queried with
  | .error _ => alertstate
  | .ok (.vector vec) =>
    if vec.length ≠ 1 then alertstate
    else
      match vec.head? with
      | none => alertstate
      | some sample =>
        if !(F64.beq sample.Value (F64.ofInt 1)) then alertstate
        else
          let as := LabelSet.index sample.Metric "alertstate"
          let alertstate := if as = alertstatePending then alertstatePending else alertstate
          let alertstate := if as = alertstateFiring then alertstateFiring else alertstate
          alertstate
  | .ok _ => alertstate

/-- The body of the loop over the rules (lines 327-430) up to the join: the
record appended for rule `ba`, given the outcomes of its three queries. -/
def alertRecord (ba : slo.MultiBurnrateAlert) (q : RuleQueries) :
    openapi.MultiBurnrateAlert :=
  let short : openapi.Burnrate :=
    ⟨Duration.Milliseconds ba.Short, F64.ofInt (-1), ba.QueryShort⟩
  let long : openapi.Burnrate :=
    ⟨Duration.Milliseconds ba.Long, F64.ofInt (-1), ba.QueryLong⟩
  let short := burnrateTask short q.short
  let long := burnrateTask long q.long
  let alertstate := alertstateTask q.state
  ⟨ba.Severity, Duration.Milliseconds ba.For, ba.Factor, short, long, alertstate⟩

/-- The loop `for _, ba := range baseAlerts` (lines 326-431): rule number `i`
is given the query outcomes `promAPI i`, and its record is appended to
`alerts`. -/
def alertsLoop (promAPI : Nat → RuleQueries) :
    Nat → List slo.MultiBurnrateAlert → List openapi.MultiBurnrateAlert →
    List openapi.MultiBurnrateAlert
  | _, [], alerts => alerts
  | i, ba :: rest, alerts =>
    alertsLoop promAPI (i + 1) rest (alerts ++ [alertRecord ba (promAPI i)])

/-- The handler `GetMultiBurnrateAlerts`, given the outcome of the objective
lookup and, for the rule at each position, the outcomes of its three
queries. -/
def GetMultiBurnrateAlerts (objective : Except Error slo.Objective)
    (promAPI : Nat → RuleQueries) :
    ImplResponse (List openapi.MultiBurnrateAlert) × Option Error :=
  match objective with
  | .error err => (⟨StatusInternalServerError, none⟩, some err)
  | .ok objective =>
    match objective.Alerts with
    | .error err => (⟨StatusInternalServerError, none⟩, some err)
    | .ok baseAlerts => (⟨StatusOK, some (alertsLoop promAPI 0 baseAlerts [])⟩, none)

/-! ### `GetREDRequests` and `GetREDErrors` (main.go 439-567) -/

/-- The nested assignment `values[j][k] = v`: absent when `j` or `k` is out of
range, where Go panics. -/
def setCell? (values : List (List F64)) (j k : Nat) (v : F64) :
    Option (List (List F64)) :=
  match values[j]? with
  | none => none
  | some row =>
    match setAt? row k v with
    | none => none
    | some row => some (values.set j row)

/-- The body of the inner loop (lines 486-491 and 551-556) for sample `j` of
series `i` of a matrix of `n` series. -/
def redCell (n i j : Nat) (pair : SamplePair) (values : List (List F64)) :
    Option (List (List F64)) :=
  let first : Option (List (List F64)) :=
    if i = 0 then
      match setAt? values j (List.replicate (n + 1) F64.zero) with
      | none => none
      | some values =>
        match setCell? values j 0 (F64.ofInt (ModelTime.Unix pair.Timestamp)) with
        | none => none
        | some values => setCell? values j 1 pair.Value
    else some values
  match first with
  | none => none
  | some values => setCell? values j (i + 1) pair.Value

/-- The inner loop `for j, pair := range m.Values` from index `j` on. -/
def redSeries (n i : Nat) : Nat → List SamplePair → List (List F64) →
    Option (List (List F64))
  | _, [], values => some values
  | j, pair :: rest, values =>
    match redCell n i j pair values with
    | none => none
    | some values => redSeries n i (j + 1) rest values

/-- The outer loop `for i, m := range matrix` from index `i` on.
`labelString` is the method `model.LabelSet.String`. -/
def redMatrix (labelString : LabelSet → String) (n : Nat) :
    Nat → List SampleStream → List String × List (List F64) →
    Option (List String × List (List F64))
  | _, [], acc => some acc
  | i, m :: rest, acc =>
    match setAt? acc.1 i (labelString m.Metric) with
    | none => none
    | some labels =>
      match redSeries n i 0 m.Values acc.2 with
      | none => none
      | some values => redMatrix labelString n (i + 1) rest (labels, values)

/-- Lines 466-501 of `GetREDRequests`, the same as lines 531-566 of
`GetREDErrors`: from the outcome of the range query to the response. The
result is absent when an index is out of range. -/
def redTransform (labelString : LabelSet → String) (queried : Except Error Value) :
    Option (ImplResponse openapi.QueryRange × Option Error) :=
  match queried with
  | .error err => some (⟨StatusInternalServerError, none⟩, some err)
  | .ok (.matrix matrix) =>
    if matrix.length = 0 then some (⟨StatusNotFound, none⟩, some "no data")
    else
      match matrix.head? with
      | none => none
      | some first =>
        let labels : List String := List.replicate matrix.length ""
        let values : List (List F64) := List.replicate first.Values.length []
        match redMatrix labelString matrix.length 0 matrix (labels, values) with
        | none => none
        | some out => some (⟨StatusOK, some ⟨out.1, out.2⟩⟩, none)
  | .ok _ =>
    some (⟨StatusInternalServerError, none⟩, some "returned data is not a matrix")

/-- The handler `GetREDRequests`, given the outcomes of the objective lookup
and of the range query. -/
def GetREDRequests (labelString : LabelSet → String)
    (objective : Except Error slo.Objective) (queried : Except Error Value) :
    Option (ImplResponse openapi.QueryRange × Option Error) :=
  match objective with
  | .error err => some (⟨StatusInternalServerError, none⟩, some err)
  | .ok _ => redTransform labelString queried

/-- The handler `GetREDErrors`, given the outcomes of the objective lookup and
of the range query. -/
def GetREDErrors (labelString : LabelSet → String)
    (objective : Except Error slo.Objective) (queried : Except Error Value) :
    Option (ImplResponse openapi.QueryRange × Option Error) :=
  match objective with
  | .error err => some (⟨StatusInternalServerError, none⟩, some err)
  | .ok _ => redTransform labelString queried

/-- The cell `values[j][c]` of a table, absent when out of range. -/
def cellAt (values : List (List F64)) (j c : Nat) : Option F64 :=
  (values[j]?).bind (fun row => row[c]?)

/-- The row the inner loop leaves for one sample of the first series: the
zeroed row of `n + 1` cells with the three assignments of lines 488, 489 and
491 applied. -/
def firstRow (n : Nat) (pair : SamplePair) : List F64 :=
  (((List.replicate (n + 1) F64.zero).set 0
    (F64.ofInt (ModelTime.Unix pair.Timestamp))).set 1 pair.Value).set 1 pair.Value

/-! ## Concrete inputs -/

/-- The backend of the witnesses: every instant query answers the empty
vector, every range query fails. -/
def witnessAPI : API :=
  ⟨fun _ _ _ => .ok (.vector []), fun _ _ _ => .error "unavailable"⟩

/-- The backend of the second witness: every call fails. -/
def failingAPI : API :=
  ⟨fun _ _ _ => .error "connection refused", fun _ _ _ => .error "timeout"⟩

/-- A burn rate rule for the witnesses: five minute and one hour windows. -/
def witnessRule : slo.MultiBurnrateAlert :=
  ⟨"critical", 5 * Minute, 60 * Minute, 2 * Minute, F64.ofInt 14, "short", "long"⟩

/-- Query outcomes for the witnesses: the short query fails, the long query
returns one sample of value 3, the state query returns one firing sample. -/
def witnessQueries : Nat → RuleQueries := fun _ =>
  ⟨.error "timeout", .ok (.vector [⟨[], F64.ofInt 3, 0⟩]),
    .ok (.vector [⟨[("alertstate", "firing")], F64.ofInt 1, 0⟩])⟩

/-- A series of two samples, one second apart, for the witnesses. -/
def witnessSeries : SampleStream :=
  ⟨[("job", "api")], [⟨1000, F64.ofInt 1⟩, ⟨2000, F64.ofInt 2⟩]⟩

/-- An instant vector of one unlabelled sample of integer value `n`. -/
def witnessVector (n : Int) : Value := .vector [⟨[], F64.ofInt n, 0⟩]

/-- An objective with target 0.99 and no rules. -/
def witnessObjective : slo.Objective := ⟨"api", F64.ofFrac 99 100, 0, .ok []⟩

/-- A label set rendered by its `job` label, for the witnesses. -/
def witnessLabelString : LabelSet → String := fun ls => LabelSet.index ls "job"

/-- A series of three samples on the grid 1 s, 2 s, 3 s. -/
def witnessSeriesA : SampleStream :=
  ⟨[("job", "a")], [⟨1000, F64.ofInt 1⟩, ⟨2000, F64.ofInt 2⟩, ⟨3000, F64.ofInt 3⟩]⟩

/-- Another series of three samples on the same grid. -/
def witnessSeriesB : SampleStream :=
  ⟨[("job", "b")], [⟨1000, F64.ofInt 4⟩, ⟨2000, F64.ofInt 5⟩, ⟨3000, F64.ofInt 6⟩]⟩

/-- A series of one sample. -/
def witnessSeriesShort : SampleStream := ⟨[("job", "c")], [⟨1000, F64.ofInt 7⟩]⟩

/-! ## Theorems -/

/-- `Time.Round` returns a multiple of the step that is at least as close to
the instant as every other multiple. -/
theorem Time.Round_nearest (t d : Int) (hd : 0 < d) (k : Int) :
    |Time.Round t d - t| ≤ |k * d - t| := by
  have hr0 : 0 ≤ t % d := Int.emod_nonneg t (ne_of_gt hd)
  have hr1 : t % d < d := Int.emod_lt_of_pos t hd
  have ht : t = d * (t / d) + t % d := (Int.ediv_add_emod t d).symm
  unfold Time.Round
  rw [if_neg (not_le.mpr hd)]
  simp only
  set r := t % d with hr
  set q := t / d with hq
  -- distance to any multiple k * d
  have key : k * d - t = (k - q) * d - r := by rw [ht]; ring
  rcases le_or_lt k q with hk | hk
  · -- multiples at or below the floor are at distance at least r
    have h1 : (k - q) * d ≤ 0 := mul_nonpos_of_nonpos_of_nonneg (by linarith) hd.le
    have h2 : |k * d - t| = r - (k - q) * d := by
      rw [key, abs_of_nonpos (by linarith)]; ring
    split_ifs with h
    · rw [h2, show t - r - t = -r by ring, abs_neg, abs_of_nonneg hr0]; linarith
    · rw [h2, show t + (d - r) - t = d - r by ring, abs_of_nonneg (by linarith)]
      linarith
  · -- multiples above the floor are at distance at least d - r
    have h1 : d ≤ (k - q) * d := by
      have : 1 ≤ k - q := by linarith
      nlinarith
    have h2 : |k * d - t| = (k - q) * d - r := by
      rw [key, abs_of_nonneg (by linarith)]
    split_ifs with h
    · rw [h2, show t - r - t = -r by ring, abs_neg, abs_of_nonneg hr0]; linarith
    · rw [h2, show t + (d - r) - t = d - r by ring, abs_of_nonneg (by linarith)]
      linarith

/-- C3: for every instant `t` and every step `d > 0`, `RoundUp t d` is a
multiple of `d`, is not before `t` and is less than one step after `t`; it is
the nearest multiple of `d` (the result of `Time.Round`), plus one step when
that nearest multiple is before `t`. -/
theorem RoundUp_spec (t d : Int) (hd : 0 < d) :
    d ∣ RoundUp t d ∧ t ≤ RoundUp t d ∧ RoundUp t d - t < d ∧
    d ∣ Time.Round t d ∧ (∀ k : Int, |Time.Round t d - t| ≤ |k * d - t|) ∧
    RoundUp t d =
      if Time.Round t d < t then Time.Round t d + d else Time.Round t d := by
  have hr0 : 0 ≤ t % d := Int.emod_nonneg t (ne_of_gt hd)
  have hr1 : t % d < d := Int.emod_lt_of_pos t hd
  have hdiv : d ∣ t - t % d := Int.dvd_sub_of_emod_eq rfl
  have hround : d ∣ Time.Round t d := by
    unfold Time.Round
    rw [if_neg (not_le.mpr hd)]
    simp only
    split_ifs
    · exact hdiv
    · have : t + (d - t % d) = (t - t % d) + d := by ring
      rw [this]; exact dvd_add hdiv (dvd_refl d)
  refine ⟨?_, ?_, ?_, hround, Time.Round_nearest t d hd, rfl⟩
  · unfold RoundUp
    simp only
    split_ifs
    · exact dvd_add hround (dvd_refl d)
    · exact hround
  · unfold RoundUp Time.Round
    rw [if_neg (not_le.mpr hd)]
    simp only
    split_ifs <;> linarith
  · unfold RoundUp Time.Round
    rw [if_neg (not_le.mpr hd)]
    simp only
    split_ifs <;> linarith

/-- Witness for C3: five minute alignment of an instant 7 ns past a
boundary. -/
theorem RoundUp_spec_witness :
    (0 : Int) < 300000000000 ∧ RoundUp 600000000007 300000000000 = 900000000000 ∧
    300000000000 ∣ RoundUp 600000000007 300000000000 :=
  ⟨by decide, by decide, (RoundUp_spec 600000000007 300000000000 (by decide)).1⟩

/-! ### The query cache -/

/-- A lookup that misses keeps missing at every later wall clock, as long as
the contents do not change. -/
theorem Cache.Get_none_later (c : Cache) (key : Nat) (now later : Time)
    (h : c.Get key now = none) (hle : now ≤ later) : c.Get key later = none := by
  unfold Cache.Get at h ⊢
  cases hf : c.find? (fun it => it.key == key) with
  | none => rfl
  | some it =>
    rw [hf] at h
    simp only at h ⊢
    by_cases hx : it.expiration < now
    · rw [if_pos (lt_of_lt_of_le hx hle)]
    · rw [if_neg hx] at h; cases h

/-- Two hits on the same contents under the same key return the same value,
whatever the two wall clocks. -/
theorem Cache.Get_some_unique (c : Cache) (key : Nat) (t u : Time) (v w : Value)
    (hv : c.Get key t = some v) (hw : c.Get key u = some w) : v = w := by
  unfold Cache.Get at hv hw
  cases hf : c.find? (fun it => it.key == key) with
  | none => rw [hf] at hv; cases hv
  | some it =>
    rw [hf] at hv hw
    simp only at hv hw
    split_ifs at hv hw
    cases hv; cases hw; rfl

/-- A hit right after an insert under the same key returns the inserted value
or, when the insert was refused, what the old contents return. -/
theorem Cache.Get_SetWithTTL (c : Cache) (key : Nat) (value : Value) (cost : Int)
    (ttl : Duration) (now later : Time) (adm : Admission) (w : Value)
    (h : (c.SetWithTTL key value cost ttl now adm).1.Get key later = some w) :
    (adm.admitted = true ∧ w = value) ∨
      (adm.admitted = false ∧ c.Get key later = some w) := by
  unfold Cache.SetWithTTL at h
  cases ha : adm.admitted with
  | false =>
    rw [ha] at h
    exact Or.inr ⟨rfl, by simpa using h⟩
  | true =>
    rw [ha] at h
    refine Or.inl ⟨rfl, ?_⟩
    simp only [if_true, Cache.Get, List.find?, beq_self_eq_true] at h
    split_ifs at h
    cases h; rfl

/-- A hit returns the cached value and changes nothing. -/
theorem promCache.Query_hit (xxh : String → Nat) (p : promCache) (env : Env)
    (query : String) (ts : Time) (v : Value)
    (h : p.cache.Get (xxh query) env.now = some v) :
    promCache.Query xxh p env query ts = (.ok v, p) := by
  unfold promCache.Query
  simp only [h]

/-- A miss followed by a backend error returns the error and records the
invocation; the cache is the one before the call. -/
theorem promCache.Query_miss_error (xxh : String → Nat) (p : promCache) (env : Env)
    (query : String) (ts : Time) (err : Error)
    (h : p.cache.Get (xxh query) env.now = none)
    (ha : p.api.Query p.calls query ts = .error err) :
    promCache.Query xxh p env query ts =
      (.error err, ⟨p.api, p.cache, p.calls ++ [.Query query ts]⟩) := by
  unfold promCache.Query
  simp only [h, ha]

/-- A miss followed by a backend answer returns the answer, records the
invocation and offers the answer to the cache for five minutes. -/
theorem promCache.Query_miss_ok (xxh : String → Nat) (p : promCache) (env : Env)
    (query : String) (ts : Time) (v : Value)
    (h : p.cache.Get (xxh query) env.now = none)
    (ha : p.api.Query p.calls query ts = .ok v) :
    promCache.Query xxh p env query ts =
      (.ok v, ⟨p.api,
        (p.cache.SetWithTTL (xxh query) v 10 (5 * Minute) env.now env.adm).1,
        p.calls ++ [.Query query ts]⟩) := by
  unfold promCache.Query
  simp only [h, ha]

/-- A hit of a range query returns the cached value and changes nothing. -/
theorem promCache.QueryRange_hit (xxh : String → Nat) (p : promCache) (env : Env)
    (query : String) (r : Range) (v : Value)
    (h : p.cache.Get (xxh query) env.now = some v) :
    promCache.QueryRange xxh p env query r = (.ok v, p) := by
  unfold promCache.QueryRange
  simp only [h]

/-- A missed range query followed by a backend error returns the error and
records the invocation; the cache is the one before the call. -/
theorem promCache.QueryRange_miss_error (xxh : String → Nat) (p : promCache)
    (env : Env) (query : String) (r : Range) (err : Error)
    (h : p.cache.Get (xxh query) env.now = none)
    (ha : p.api.QueryRange p.calls query r = .error err) :
    promCache.QueryRange xxh p env query r =
      (.error err, ⟨p.api, p.cache, p.calls ++ [.QueryRange query r]⟩) := by
  unfold promCache.QueryRange
  simp only [h, ha]

/-- A missed instant query invokes the backend, whatever it answers. -/
theorem promCache.Query_miss_calls (xxh : String → Nat) (p : promCache) (env : Env)
    (query : String) (ts : Time) (h : p.cache.Get (xxh query) env.now = none) :
    (promCache.Query xxh p env query ts).2.calls = p.calls ++ [.Query query ts] := by
  unfold promCache.Query
  simp only [h]
  cases p.api.Query p.calls query ts <;> rfl

/-- A missed range query invokes the backend, whatever it answers. -/
theorem promCache.QueryRange_miss_calls (xxh : String → Nat) (p : promCache)
    (env : Env) (query : String) (r : Range)
    (h : p.cache.Get (xxh query) env.now = none) :
    (promCache.QueryRange xxh p env query r).2.calls =
      p.calls ++ [.QueryRange query r] := by
  unfold promCache.QueryRange
  simp only [h]
  cases p.api.QueryRange p.calls query r <;> rfl

/-- After a miss, a backend answer and an admitted insert, the entry under the
expression's hash is live for the five minutes that follow. -/
theorem promCache.Query_entry_live (xxh : String → Nat) (p : promCache) (env : Env)
    (query : String) (ts : Time) (v : Value) (later : Time)
    (h : p.cache.Get (xxh query) env.now = none)
    (ha : p.api.Query p.calls query ts = .ok v) (hadm : env.adm.admitted = true)
    (hlater : later ≤ env.now + 5 * Minute) :
    (promCache.Query xxh p env query ts).2.cache.Get (xxh query) later = some v := by
  rw [promCache.Query_miss_ok xxh p env query ts v h ha]
  simp only [Cache.SetWithTTL, hadm, if_true, Cache.Get, List.find?, beq_self_eq_true]
  rw [if_neg (not_lt.mpr hlater)]

/-- A second call that finds the entry live invokes nothing and returns what
the first call returned; the first call invoked the backend at most once. -/
theorem promCache.Query_second_hit (xxh : String → Nat) (p : promCache)
    (env1 env2 : Env) (query : String) (ts1 ts2 : Time)
    (hclock : env1.now ≤ env2.now)
    (hlive : ((promCache.Query xxh p env1 query ts1).2.cache.Get (xxh query)
      env2.now).isSome = true) :
    ((promCache.Query xxh (promCache.Query xxh p env1 query ts1).2 env2 query
        ts2).2.calls.length ≤ p.calls.length + 1) ∧
    ((promCache.Query xxh (promCache.Query xxh p env1 query ts1).2 env2 query
        ts2).2.calls = (promCache.Query xxh p env1 query ts1).2.calls) ∧
    (∃ v, (promCache.Query xxh p env1 query ts1).1 = .ok v ∧
      (promCache.Query xxh (promCache.Query xxh p env1 query ts1).2 env2 query
        ts2).1 = .ok v) := by
  obtain ⟨w, hw⟩ := Option.isSome_iff_exists.mp hlive
  -- the second call hits, whatever the first did
  rw [promCache.Query_hit xxh _ env2 query ts2 w hw]
  simp only
  -- what the first call did
  cases hget : p.cache.Get (xxh query) env1.now with
  | some v =>
    rw [promCache.Query_hit xxh p env1 query ts1 v hget] at hw ⊢
    have : v = w := Cache.Get_some_unique _ _ _ _ _ _ hget hw
    subst this
    exact ⟨Nat.le_succ _, trivial, v, rfl, rfl⟩
  | none =>
    have hmiss := Cache.Get_none_later _ _ _ _ hget hclock
    cases hapi : p.api.Query p.calls query ts1 with
    | error err =>
      rw [promCache.Query_miss_error xxh p env1 query ts1 err hget hapi] at hw
      simp only at hw
      rw [hmiss] at hw; cases hw
    | ok v =>
      rw [promCache.Query_miss_ok xxh p env1 query ts1 v hget hapi] at hw ⊢
      simp only at hw ⊢
      rcases Cache.Get_SetWithTTL _ _ _ _ _ _ _ _ _ hw with ⟨_, h⟩ | ⟨_, h⟩
      · subst h
        exact ⟨by simp, trivial, w, rfl, rfl⟩
      · rw [hmiss] at h; cases h

/-- C1: for every expression text and every pair of timestamps, when two
`promCache.Query` calls with the same expression are made one after the other
inside the TTL window of the entry (the entry under the expression's hash is
live at the second call), the backend is invoked at most once over the two
calls, the second call invokes nothing and returns the value the first call
returned. The window is open for the five minutes after a first call that
missed, got an answer and had its insert admitted. The key is `xxh query`:
neither timestamp takes part. -/
theorem promCache.Query_twice_within_ttl (xxh : String → Nat) (p : promCache)
    (env1 env2 : Env) (query : String) (ts1 ts2 : Time)
    (hclock : env1.now ≤ env2.now) :
    (∀ v : Value, p.cache.Get (xxh query) env1.now = none →
      p.api.Query p.calls query ts1 = .ok v → env1.adm.admitted = true →
      env2.now ≤ env1.now + 5 * Minute →
      (promCache.Query xxh p env1 query ts1).2.cache.Get (xxh query) env2.now
        = some v) ∧
    (((promCache.Query xxh p env1 query ts1).2.cache.Get (xxh query)
        env2.now).isSome = true →
      ((promCache.Query xxh (promCache.Query xxh p env1 query ts1).2 env2 query
          ts2).2.calls.length ≤ p.calls.length + 1) ∧
      ((promCache.Query xxh (promCache.Query xxh p env1 query ts1).2 env2 query
          ts2).2.calls = (promCache.Query xxh p env1 query ts1).2.calls) ∧
      (∃ v, (promCache.Query xxh p env1 query ts1).1 = .ok v ∧
        (promCache.Query xxh (promCache.Query xxh p env1 query ts1).2 env2 query
          ts2).1 = .ok v)) :=
  ⟨fun v hmiss hapi hadm hlater =>
      promCache.Query_entry_live xxh p env1 query ts1 v env2.now hmiss hapi hadm hlater,
    fun hlive => promCache.Query_second_hit xxh p env1 env2 query ts1 ts2 hclock hlive⟩

/-- Witness for C1: an empty cache, an admitted insert, a second call one
nanosecond later with another timestamp: one backend invocation in all. -/
theorem promCache.Query_twice_within_ttl_witness :
    ((0 : Int) ≤ 1) ∧
    ((promCache.Query String.length ⟨witnessAPI, [], []⟩ ⟨0, ⟨true, []⟩⟩ "up"
        5).2.cache.Get (String.length "up") 1 = some (.vector [])) ∧
    ((promCache.Query String.length (promCache.Query String.length
        ⟨witnessAPI, [], []⟩ ⟨0, ⟨true, []⟩⟩ "up" 5).2 ⟨1, ⟨true, []⟩⟩ "up"
        9).2.calls.length ≤ 0 + 1) :=
  ⟨by decide,
    (promCache.Query_twice_within_ttl String.length ⟨witnessAPI, [], []⟩
      ⟨0, ⟨true, []⟩⟩ ⟨1, ⟨true, []⟩⟩ "up" 5 9 (by decide)).1 (.vector []) rfl rfl rfl
      (by decide),
    ((promCache.Query_twice_within_ttl String.length ⟨witnessAPI, [], []⟩
      ⟨0, ⟨true, []⟩⟩ ⟨1, ⟨true, []⟩⟩ "up" 5 9 (by decide)).2 (by decide)).1⟩

/-- C2: whenever the cache lookup misses and the backend call returns an
error, `promCache.Query` and `promCache.QueryRange` return that same error,
leave the cache as it was, so that nothing is stored under the expression's
key, and the next call with the same expression (instant or range, at the same
or any later wall clock) invokes the backend again. -/
theorem promCache.error_not_cached (xxh : String → Nat) (p : promCache) (env : Env)
    (query : String) (ts : Time) (r : Range) :
    (∀ err : Error, p.cache.Get (xxh query) env.now = none →
      p.api.Query p.calls query ts = .error err →
      (promCache.Query xxh p env query ts).1 = .error err ∧
      (promCache.Query xxh p env query ts).2.cache = p.cache ∧
      (promCache.Query xxh p env query ts).2.cache.Get (xxh query) env.now = none ∧
      ∀ (env2 : Env) (ts2 : Time) (r2 : Range), env.now ≤ env2.now →
        (promCache.Query xxh (promCache.Query xxh p env query ts).2 env2 query
            ts2).2.calls =
          (promCache.Query xxh p env query ts).2.calls ++ [.Query query ts2] ∧
        (promCache.QueryRange xxh (promCache.Query xxh p env query ts).2 env2 query
            r2).2.calls =
          (promCache.Query xxh p env query ts).2.calls ++ [.QueryRange query r2]) ∧
    (∀ err : Error, p.cache.Get (xxh query) env.now = none →
      p.api.QueryRange p.calls query r = .error err →
      (promCache.QueryRange xxh p env query r).1 = .error err ∧
      (promCache.QueryRange xxh p env query r).2.cache = p.cache ∧
      (promCache.QueryRange xxh p env query r).2.cache.Get (xxh query) env.now
        = none ∧
      ∀ (env2 : Env) (ts2 : Time) (r2 : Range), env.now ≤ env2.now →
        (promCache.Query xxh (promCache.QueryRange xxh p env query r).2 env2 query
            ts2).2.calls =
          (promCache.QueryRange xxh p env query r).2.calls ++ [.Query query ts2] ∧
        (promCache.QueryRange xxh (promCache.QueryRange xxh p env query r).2 env2
            query r2).2.calls =
          (promCache.QueryRange xxh p env query r).2.calls ++
            [.QueryRange query r2]) := by
  constructor
  · intro err hmiss herr
    rw [promCache.Query_miss_error xxh p env query ts err hmiss herr]
    refine ⟨rfl, rfl, hmiss, ?_⟩
    intro env2 ts2 r2 hle
    have hlater : p.cache.Get (xxh query) env2.now = none :=
      Cache.Get_none_later _ _ _ _ hmiss hle
    exact ⟨promCache.Query_miss_calls xxh _ env2 query ts2 hlater,
      promCache.QueryRange_miss_calls xxh _ env2 query r2 hlater⟩
  · intro err hmiss herr
    rw [promCache.QueryRange_miss_error xxh p env query r err hmiss herr]
    refine ⟨rfl, rfl, hmiss, ?_⟩
    intro env2 ts2 r2 hle
    have hlater : p.cache.Get (xxh query) env2.now = none :=
      Cache.Get_none_later _ _ _ _ hmiss hle
    exact ⟨promCache.Query_miss_calls xxh _ env2 query ts2 hlater,
      promCache.QueryRange_miss_calls xxh _ env2 query r2 hlater⟩

/-- Witness for C2: an empty cache in front of a backend that fails; both the
instant and the range query hand the backend's error back. -/
theorem promCache.error_not_cached_witness :
    (promCache.Query String.length ⟨failingAPI, [], []⟩ ⟨0, ⟨true, []⟩⟩ "up" 5).1
        = .error "connection refused" ∧
    (promCache.QueryRange String.length ⟨failingAPI, [], []⟩ ⟨0, ⟨true, []⟩⟩ "up"
        ⟨0, 10, 1⟩).1 = .error "timeout" :=
  ⟨((promCache.error_not_cached String.length ⟨failingAPI, [], []⟩
      ⟨0, ⟨true, []⟩⟩ "up" 5 ⟨0, 10, 1⟩).1 "connection refused" rfl rfl).1,
   ((promCache.error_not_cached String.length ⟨failingAPI, [], []⟩
      ⟨0, ⟨true, []⟩⟩ "up" 5 ⟨0, 10, 1⟩).2 "timeout" rfl rfl).1⟩

/-! ### The multi burn rate alerts -/

/-- The loop over the rules appends one record per rule. -/
theorem alertsLoop_length (promAPI : Nat → RuleQueries)
    (rules : List slo.MultiBurnrateAlert) :
    ∀ (i : Nat) (alerts : List openapi.MultiBurnrateAlert),
      (alertsLoop promAPI i rules alerts).length = alerts.length + rules.length := by
  induction rules with
  | nil => intro i alerts; simp [alertsLoop]
  | cons ba rest ih =>
    intro i alerts
    simp only [alertsLoop, ih, List.length_append, List.length_cons, List.length_nil]
    omega

/-- The loop over the rules keeps the records it was given. -/
theorem alertsLoop_getElem?_old (promAPI : Nat → RuleQueries)
    (rules : List slo.MultiBurnrateAlert) :
    ∀ (i : Nat) (alerts : List openapi.MultiBurnrateAlert) (k : Nat),
      k < alerts.length → (alertsLoop promAPI i rules alerts)[k]? = alerts[k]? := by
  induction rules with
  | nil => intro i alerts k _; simp [alertsLoop]
  | cons ba rest ih =>
    intro i alerts k hk
    simp only [alertsLoop]
    rw [ih (i + 1) _ k (by simp; omega), List.getElem?_append_left hk]

/-- The record at position `k` of the new part is the record of rule `k`, built
from the query outcomes of that rule. -/
theorem alertsLoop_getElem? (promAPI : Nat → RuleQueries)
    (rules : List slo.MultiBurnrateAlert) :
    ∀ (i : Nat) (alerts : List openapi.MultiBurnrateAlert) (k : Nat)
      (ba : slo.MultiBurnrateAlert), rules[k]? = some ba →
      (alertsLoop promAPI i rules alerts)[alerts.length + k]? =
        some (alertRecord ba (promAPI (i + k))) := by
  induction rules with
  | nil => intro i alerts k ba h; simp at h
  | cons b rest ih =>
    intro i alerts k ba h
    simp only [alertsLoop]
    cases k with
    | zero =>
      simp only [List.getElem?_cons_zero, Option.some.injEq] at h
      subst h
      rw [alertsLoop_getElem?_old promAPI rest (i + 1) _ _ (by simp)]
      simp
    | succ k =>
      simp only [List.getElem?_cons_succ] at h
      have := ih (i + 1) (alerts ++ [alertRecord b (promAPI i)]) k ba h
      simp only [List.length_append, List.length_cons, List.length_nil] at this
      rw [show alerts.length + (k + 1) = alerts.length + (0 + 1) + k by omega,
        show i + (k + 1) = i + 1 + k by omega]
      exact this

/-- The handler answers OK with the record of every rule, in rule order. -/
theorem GetMultiBurnrateAlerts_ok (name : String) (target : F64) (window : Duration)
    (rules : List slo.MultiBurnrateAlert) (promAPI : Nat → RuleQueries) :
    ∃ alerts : List openapi.MultiBurnrateAlert,
      GetMultiBurnrateAlerts (.ok ⟨name, target, window, .ok rules⟩) promAPI =
        (⟨StatusOK, some alerts⟩, none) ∧
      alerts.length = rules.length ∧
      ∀ (i : Nat) (ba : slo.MultiBurnrateAlert), rules[i]? = some ba →
        alerts[i]? = some (alertRecord ba (promAPI i)) := by
  refine ⟨alertsLoop promAPI 0 rules [], rfl, ?_, ?_⟩
  · simp [alertsLoop_length]
  · intro i ba h
    have := alertsLoop_getElem? promAPI rules 0 [] i ba h
    simpa using this

/-- A burn rate goroutine leaves the window and the query text alone. -/
theorem burnrateTask_fields (b : openapi.Burnrate) (queried : Except Error Value) :
    (burnrateTask b queried).Window = b.Window ∧
      (burnrateTask b queried).Query = b.Query := by
  unfold burnrateTask
  split
  · exact ⟨rfl, rfl⟩
  · split
    · exact ⟨rfl, rfl⟩
    · split <;> exact ⟨rfl, rfl⟩
  · exact ⟨rfl, rfl⟩

/-- A burn rate goroutine whose query returned a vector of exactly one sample
stores that sample's value. -/
theorem burnrateTask_one (b : openapi.Burnrate) (s : Sample) :
    (burnrateTask b (.ok (.vector [s]))).Current = s.Value := by
  simp [burnrateTask]

/-- A burn rate goroutine whose query did anything else leaves the current
value alone. -/
theorem burnrateTask_other (b : openapi.Burnrate) (queried : Except Error Value)
    (h : ∀ s : Sample, queried ≠ .ok (.vector [s])) :
    (burnrateTask b queried).Current = b.Current := by
  unfold burnrateTask
  split
  · rfl
  · rename_i vec
    split
    · rfl
    · rename_i hlen
      match vec, hlen with
      | [s], _ => exact absurd rfl (h s)
      | [], hlen => simp at hlen
      | _ :: _ :: _, hlen => simp at hlen
  · rfl

/-- The state goroutine, by cases on the outcome of its query. -/
theorem alertstateTask_one (s : Sample) :
    alertstateTask (.ok (.vector [s])) =
      if F64.beq s.Value (F64.ofInt 1) = true then
        (if LabelSet.index s.Metric "alertstate" = "firing" then "firing"
         else if LabelSet.index s.Metric "alertstate" = "pending" then "pending"
         else "inactive")
      else "inactive" := by
  simp only [alertstateTask, alertstateInactive, alertstatePending, alertstateFiring,
    List.length_singleton, ne_eq, not_true_eq_false, if_false, List.head?_cons]
  cases F64.beq s.Value (F64.ofInt 1) <;> simp

/-- The state goroutine leaves `inactive` when its query did not return a
vector of exactly one sample. -/
theorem alertstateTask_other (queried : Except Error Value)
    (h : ∀ s : Sample, queried ≠ .ok (.vector [s])) :
    alertstateTask queried = "inactive" := by
  unfold alertstateTask
  simp only
  split
  · rfl
  · rename_i vec
    split
    · rfl
    · rename_i hlen
      match vec, hlen with
      | [s], _ => exact absurd rfl (h s)
      | [], hlen => simp at hlen
      | _ :: _ :: _, hlen => simp at hlen
  · rfl

/-- C4: in `GetMultiBurnrateAlerts`, for every rule, the record's state is
`firing` exactly when the state query succeeded with an instant vector of
exactly one sample whose value is 1 and whose `alertstate` label is `firing`;
it is `pending` exactly when the same holds with the label `pending`; it is
`inactive` in every other case. -/
theorem GetMultiBurnrateAlerts_state (name : String) (target : F64)
    (window : Duration) (rules : List slo.MultiBurnrateAlert)
    (promAPI : Nat → RuleQueries) (i : Nat) (ba : slo.MultiBurnrateAlert)
    (hrule : rules[i]? = some ba) :
    ∃ (alerts : List openapi.MultiBurnrateAlert) (record : openapi.MultiBurnrateAlert),
      GetMultiBurnrateAlerts (.ok ⟨name, target, window, .ok rules⟩) promAPI =
        (⟨StatusOK, some alerts⟩, none) ∧
      alerts[i]? = some record ∧
      (record.State = "firing" ↔
        ∃ s : Sample, (promAPI i).state = .ok (.vector [s]) ∧
          F64.beq s.Value (F64.ofInt 1) = true ∧
          LabelSet.index s.Metric "alertstate" = "firing") ∧
      (record.State = "pending" ↔
        ∃ s : Sample, (promAPI i).state = .ok (.vector [s]) ∧
          F64.beq s.Value (F64.ofInt 1) = true ∧
          LabelSet.index s.Metric "alertstate" = "pending") ∧
      (record.State = "inactive" ↔
        ¬ ∃ s : Sample, (promAPI i).state = .ok (.vector [s]) ∧
          F64.beq s.Value (F64.ofInt 1) = true ∧
          (LabelSet.index s.Metric "alertstate" = "firing" ∨
            LabelSet.index s.Metric "alertstate" = "pending")) := by
  obtain ⟨alerts, hresp, _, hget⟩ :=
    GetMultiBurnrateAlerts_ok name target window rules promAPI
  refine ⟨alerts, alertRecord ba (promAPI i), hresp, hget i ba hrule, ?_⟩
  have hstate : (alertRecord ba (promAPI i)).State = alertstateTask (promAPI i).state :=
    rfl
  rw [hstate]
  by_cases hone : ∃ s : Sample, (promAPI i).state = .ok (.vector [s])
  · obtain ⟨s, hs⟩ := hone
    rw [hs, alertstateTask_one]
    have hinj : ∀ s2 : Sample,
        (Except.ok (Value.vector [s]) : Except Error Value) = .ok (.vector [s2]) →
          s2 = s := by
      intro s2 h
      injection h with h
      injection h with h
      injection h with h
      exact h.symm
    by_cases hv : F64.beq s.Value (F64.ofInt 1) = true
    · rw [if_pos hv]
      by_cases hf : LabelSet.index s.Metric "alertstate" = "firing"
      · rw [if_pos hf]
        refine ⟨⟨fun _ => ⟨s, rfl, hv, hf⟩, fun _ => rfl⟩, ⟨?_, ?_⟩, ⟨?_, ?_⟩⟩
        · intro h; exact absurd h (by decide)
        · rintro ⟨s2, h2, _, hp⟩
          rw [hinj s2 h2, hf] at hp
          exact absurd hp (by decide)
        · intro h; exact absurd h (by decide)
        · intro h; exact absurd ⟨s, rfl, hv, Or.inl hf⟩ h
      · rw [if_neg hf]
        by_cases hp : LabelSet.index s.Metric "alertstate" = "pending"
        · rw [if_pos hp]
          refine ⟨⟨?_, ?_⟩, ⟨fun _ => ⟨s, rfl, hv, hp⟩, fun _ => rfl⟩, ⟨?_, ?_⟩⟩
          · intro h; exact absurd h (by decide)
          · rintro ⟨s2, h2, _, hf2⟩
            rw [hinj s2 h2] at hf2
            exact absurd hf2 hf
          · intro h; exact absurd h (by decide)
          · intro h; exact absurd ⟨s, rfl, hv, Or.inr hp⟩ h
        · rw [if_neg hp]
          refine ⟨⟨?_, ?_⟩, ⟨?_, ?_⟩, ⟨?_, fun _ => rfl⟩⟩
          · intro h; exact absurd h (by decide)
          · rintro ⟨s2, h2, _, hf2⟩
            rw [hinj s2 h2] at hf2
            exact absurd hf2 hf
          · intro h; exact absurd h (by decide)
          · rintro ⟨s2, h2, _, hp2⟩
            rw [hinj s2 h2] at hp2
            exact absurd hp2 hp
          · rintro _ ⟨s2, h2, _, h3⟩
            rw [hinj s2 h2] at h3
            rcases h3 with h3 | h3
            · exact hf h3
            · exact hp h3
    · rw [if_neg hv]
      refine ⟨⟨?_, ?_⟩, ⟨?_, ?_⟩, ⟨?_, fun _ => rfl⟩⟩
      · intro h; exact absurd h (by decide)
      · rintro ⟨s2, h2, hv2, _⟩
        rw [hinj s2 h2] at hv2
        exact absurd hv2 hv
      · intro h; exact absurd h (by decide)
      · rintro ⟨s2, h2, hv2, _⟩
        rw [hinj s2 h2] at hv2
        exact absurd hv2 hv
      · rintro _ ⟨s2, h2, hv2, _⟩
        rw [hinj s2 h2] at hv2
        exact absurd hv2 hv
  · have hother : ∀ s : Sample, (promAPI i).state ≠ .ok (.vector [s]) :=
      fun s hs => hone ⟨s, hs⟩
    rw [alertstateTask_other _ hother]
    refine ⟨⟨?_, ?_⟩, ⟨?_, ?_⟩, ⟨?_, fun _ => rfl⟩⟩
    · intro h; exact absurd h (by decide)
    · rintro ⟨s, hs, _⟩; exact absurd hs (hother s)
    · intro h; exact absurd h (by decide)
    · rintro ⟨s, hs, _⟩; exact absurd hs (hother s)
    · rintro _ ⟨s, hs, _⟩; exact absurd hs (hother s)

/-- Witness for C4: one rule whose state query returns one sample of value 1
labelled `firing`. -/
theorem GetMultiBurnrateAlerts_state_witness :
    [witnessRule][0]? = some witnessRule ∧
    ∃ (alerts : List openapi.MultiBurnrateAlert) (record : openapi.MultiBurnrateAlert),
      GetMultiBurnrateAlerts (.ok ⟨"api", F64.ofFrac 99 100, 0, .ok [witnessRule]⟩)
        witnessQueries = (⟨StatusOK, some alerts⟩, none) ∧
      alerts[0]? = some record ∧ record.State = "firing" := by
  refine ⟨rfl, ?_⟩
  obtain ⟨alerts, record, h1, h2, h3, _⟩ :=
    GetMultiBurnrateAlerts_state "api" (F64.ofFrac 99 100) 0 [witnessRule]
      witnessQueries 0 witnessRule rfl
  exact ⟨alerts, record, h1, h2, h3.mpr ⟨⟨[("alertstate", "firing")], F64.ofInt 1, 0⟩,
    rfl, by decide, by decide⟩⟩

/-- C5: in `GetMultiBurnrateAlerts`, for every rule and for each of its two
burn rate tasks, the record's current burn value is the sample's value when
that task's own query succeeded with an instant vector of exactly one sample,
and it is the sentinel -1 when the query failed, returned something that is
not a vector, or returned a vector whose sample count is not one, whatever the
outcomes of the rule's other two queries; the handler still answers OK with
the rule's record. -/
theorem GetMultiBurnrateAlerts_current (name : String) (target : F64)
    (window : Duration) (rules : List slo.MultiBurnrateAlert)
    (promAPI : Nat → RuleQueries) (i : Nat) (ba : slo.MultiBurnrateAlert)
    (hrule : rules[i]? = some ba) :
    ∃ (alerts : List openapi.MultiBurnrateAlert) (record : openapi.MultiBurnrateAlert),
      GetMultiBurnrateAlerts (.ok ⟨name, target, window, .ok rules⟩) promAPI =
        (⟨StatusOK, some alerts⟩, none) ∧
      alerts[i]? = some record ∧
      (∀ s : Sample, (promAPI i).short = .ok (.vector [s]) →
        record.Short.Current = s.Value) ∧
      (∀ err : Error, (promAPI i).short = .error err →
        record.Short.Current = F64.ofInt (-1)) ∧
      (∀ v : Value, (promAPI i).short = .ok v → (∀ vec, v ≠ .vector vec) →
        record.Short.Current = F64.ofInt (-1)) ∧
      (∀ vec : List Sample, (promAPI i).short = .ok (.vector vec) → vec.length ≠ 1 →
        record.Short.Current = F64.ofInt (-1)) ∧
      (∀ s : Sample, (promAPI i).long = .ok (.vector [s]) →
        record.Long.Current = s.Value) ∧
      (∀ err : Error, (promAPI i).long = .error err →
        record.Long.Current = F64.ofInt (-1)) ∧
      (∀ v : Value, (promAPI i).long = .ok v → (∀ vec, v ≠ .vector vec) →
        record.Long.Current = F64.ofInt (-1)) ∧
      (∀ vec : List Sample, (promAPI i).long = .ok (.vector vec) → vec.length ≠ 1 →
        record.Long.Current = F64.ofInt (-1)) := by
  obtain ⟨alerts, hresp, _, hget⟩ :=
    GetMultiBurnrateAlerts_ok name target window rules promAPI
  refine ⟨alerts, alertRecord ba (promAPI i), hresp, hget i ba hrule, ?_⟩
  have hshort : ∀ q : Except Error Value, (∀ s : Sample, q ≠ .ok (.vector [s])) →
      (burnrateTask ⟨Duration.Milliseconds ba.Short, F64.ofInt (-1), ba.QueryShort⟩
        q).Current = F64.ofInt (-1) := fun q h => burnrateTask_other _ q h
  have hlong : ∀ q : Except Error Value, (∀ s : Sample, q ≠ .ok (.vector [s])) →
      (burnrateTask ⟨Duration.Milliseconds ba.Long, F64.ofInt (-1), ba.QueryLong⟩
        q).Current = F64.ofInt (-1) := fun q h => burnrateTask_other _ q h
  have herr : ∀ (err : Error) (s : Sample),
      (Except.error err : Except Error Value) ≠ .ok (.vector [s]) := by
    intro err s h; cases h
  have hnovec : ∀ (v : Value), (∀ vec, v ≠ .vector vec) → ∀ s : Sample,
      (Except.ok v : Except Error Value) ≠ .ok (.vector [s]) := by
    intro v hv s h
    injection h with h
    exact hv [s] h
  have hlen : ∀ (vec : List Sample), vec.length ≠ 1 → ∀ s : Sample,
      (Except.ok (Value.vector vec) : Except Error Value) ≠ .ok (.vector [s]) := by
    intro vec hvec s h
    injection h with h
    injection h with h
    rw [h] at hvec
    exact hvec rfl
  refine ⟨?_, ?_, ?_, ?_, ?_, ?_, ?_, ?_⟩
  · intro s hs
    show (burnrateTask _ (promAPI i).short).Current = s.Value
    rw [hs, burnrateTask_one]
  · intro err hs
    show (burnrateTask _ (promAPI i).short).Current = _
    rw [hs]; exact hshort _ (herr err)
  · intro v hs hv
    show (burnrateTask _ (promAPI i).short).Current = _
    rw [hs]; exact hshort _ (hnovec v hv)
  · intro vec hs hvec
    show (burnrateTask _ (promAPI i).short).Current = _
    rw [hs]; exact hshort _ (hlen vec hvec)
  · intro s hs
    show (burnrateTask _ (promAPI i).long).Current = s.Value
    rw [hs, burnrateTask_one]
  · intro err hs
    show (burnrateTask _ (promAPI i).long).Current = _
    rw [hs]; exact hlong _ (herr err)
  · intro v hs hv
    show (burnrateTask _ (promAPI i).long).Current = _
    rw [hs]; exact hlong _ (hnovec v hv)
  · intro vec hs hvec
    show (burnrateTask _ (promAPI i).long).Current = _
    rw [hs]; exact hlong _ (hlen vec hvec)

/-- Witness for C5: the short query fails and the long query returns one
sample of value 3; the record holds -1 and 3. -/
theorem GetMultiBurnrateAlerts_current_witness :
    [witnessRule][0]? = some witnessRule ∧
    ∃ (alerts : List openapi.MultiBurnrateAlert) (record : openapi.MultiBurnrateAlert),
      GetMultiBurnrateAlerts (.ok ⟨"api", F64.ofFrac 99 100, 0, .ok [witnessRule]⟩)
        witnessQueries = (⟨StatusOK, some alerts⟩, none) ∧
      alerts[0]? = some record ∧ record.Short.Current = F64.ofInt (-1) ∧
      record.Long.Current = F64.ofInt 3 := by
  refine ⟨rfl, ?_⟩
  obtain ⟨alerts, record, h1, h2, _, h4, _, _, h7, _⟩ :=
    GetMultiBurnrateAlerts_current "api" (F64.ofFrac 99 100) 0 [witnessRule]
      witnessQueries 0 witnessRule rfl
  exact ⟨alerts, record, h1, h2, h4 "timeout" rfl, h7 ⟨[], F64.ofInt 3, 0⟩ rfl⟩

/-- C6: for every objective whose lookup and rule generation succeed with the
rules `r_1 .. r_n`, and for every outcome of the metrics queries,
`GetMultiBurnrateAlerts` answers OK with exactly `n` records, the `i`-th built
from `r_i`: its severity, its for-duration in milliseconds, its factor, and
the window in milliseconds and the query text of its short and long burn
rates. -/
theorem GetMultiBurnrateAlerts_one_per_rule (name : String) (target : F64)
    (window : Duration) (rules : List slo.MultiBurnrateAlert)
    (promAPI : Nat → RuleQueries) :
    ∃ alerts : List openapi.MultiBurnrateAlert,
      GetMultiBurnrateAlerts (.ok ⟨name, target, window, .ok rules⟩) promAPI =
        (⟨StatusOK, some alerts⟩, none) ∧
      alerts.length = rules.length ∧
      ∀ (i : Nat) (ba : slo.MultiBurnrateAlert), rules[i]? = some ba →
        ∃ record : openapi.MultiBurnrateAlert, alerts[i]? = some record ∧
          record.Severity = ba.Severity ∧
          record.For = Duration.Milliseconds ba.For ∧
          record.Factor = ba.Factor ∧
          record.Short.Window = Duration.Milliseconds ba.Short ∧
          record.Short.Query = ba.QueryShort ∧
          record.Long.Window = Duration.Milliseconds ba.Long ∧
          record.Long.Query = ba.QueryLong := by
  obtain ⟨alerts, hresp, hlen, hget⟩ :=
    GetMultiBurnrateAlerts_ok name target window rules promAPI
  refine ⟨alerts, hresp, hlen, ?_⟩
  intro i ba hrule
  refine ⟨alertRecord ba (promAPI i), hget i ba hrule, rfl, rfl, rfl, ?_, ?_, ?_, ?_⟩
  · exact (burnrateTask_fields _ _).1
  · exact (burnrateTask_fields _ _).2
  · exact (burnrateTask_fields _ _).1
  · exact (burnrateTask_fields _ _).2

/-- Witness for C6: one rule, all three of whose queries fail, still yields
its record. -/
theorem GetMultiBurnrateAlerts_one_per_rule_witness :
    [witnessRule][0]? = some witnessRule ∧
    ∃ (alerts : List openapi.MultiBurnrateAlert) (record : openapi.MultiBurnrateAlert),
      GetMultiBurnrateAlerts (.ok ⟨"api", F64.ofFrac 99 100, 0, .ok [witnessRule]⟩)
        (fun _ => ⟨.error "a", .error "b", .error "c"⟩) =
          (⟨StatusOK, some alerts⟩, none) ∧
      alerts.length = 1 ∧ alerts[0]? = some record ∧
      record.Severity = "critical" ∧ record.For = 120000 ∧
      record.Short.Window = 300000 ∧ record.Long.Window = 3600000 := by
  refine ⟨rfl, ?_⟩
  obtain ⟨alerts, hrun, hlen, h⟩ :=
    GetMultiBurnrateAlerts_one_per_rule "api" (F64.ofFrac 99 100) 0 [witnessRule]
      (fun _ => ⟨.error "a", .error "b", .error "c"⟩)
  obtain ⟨record, hrec, h1, h2, _, h4, _, h6, _⟩ := h 0 witnessRule rfl
  exact ⟨alerts, record, hrun, hlen, hrec, h1, h2, h4, h6⟩

/-! ### The error budget series -/

/-- The pair written for one sample (line 297). -/
theorem budgetSeries_spec (vals : List SamplePair) :
    ∀ (i : Nat) (pairs : List openapi.ErrorBudgetPair),
      i + vals.length ≤ pairs.length →
      ∃ out, budgetSeries i vals pairs = some out ∧ out.length = pairs.length ∧
        ∀ k : Nat, out[k]? =
          if i ≤ k ∧ k < i + vals.length then
            (vals[k - i]?).map
              (fun p => (⟨ModelTime.Unix p.Timestamp, p.Value⟩ : openapi.ErrorBudgetPair))
          else pairs[k]? := by
  induction vals with
  | nil =>
    intro i pairs _
    refine ⟨pairs, rfl, rfl, ?_⟩
    intro k
    rw [if_neg]
    simp
  | cons p rest ih =>
    intro i pairs hlen
    simp only [List.length_cons] at hlen
    have hi : i < pairs.length := by omega
    obtain ⟨out, hout, hlen2, hget⟩ :=
      ih (i + 1) (pairs.set i ⟨ModelTime.Unix p.Timestamp, p.Value⟩)
        (by rw [List.length_set]; omega)
    refine ⟨out, ?_, ?_, ?_⟩
    · simp only [budgetSeries, setAt?, if_pos hi]
      exact hout
    · rw [hlen2, List.length_set]
    · intro k
      rw [hget k]
      simp only [List.length_cons]
      by_cases h1 : i + 1 ≤ k ∧ k < i + 1 + rest.length
      · rw [if_pos h1, if_pos (by omega)]
        have : k - i = (k - (i + 1)) + 1 := by omega
        rw [this, List.getElem?_cons_succ]
      · rw [if_neg h1]
        by_cases h2 : k = i
        · subst h2
          rw [if_pos (by omega), List.getElem?_set_self hi]
          simp
        · rw [if_neg (by omega), List.getElem?_set_ne (Ne.symm h2)]

/-- C7: `GetObjectiveErrorBudget`, given a range query result that is a
matrix, fails with NotFound and `no data` when the matrix has no series or
more than one; when it has exactly one series it answers OK with one pair per
sample of that series, in order, the `i`-th pair holding the Unix second of
the `i`-th sample's timestamp and the `i`-th sample's value. -/
theorem GetObjectiveErrorBudget_matrix (objective : slo.Objective)
    (matrix : List SampleStream) :
    (matrix.length ≠ 1 →
      GetObjectiveErrorBudget (.ok objective) (.ok (.matrix matrix)) =
        some (⟨StatusNotFound, none⟩, some "no data")) ∧
    (∀ series : SampleStream, matrix = [series] →
      ∃ pairs : List openapi.ErrorBudgetPair,
        GetObjectiveErrorBudget (.ok objective) (.ok (.matrix matrix)) =
          some (⟨StatusOK, some pairs⟩, none) ∧
        pairs.length = series.Values.length ∧
        (∀ (i : Nat) (p : SamplePair), series.Values[i]? = some p →
          pairs[i]? = some ⟨ModelTime.Unix p.Timestamp, p.Value⟩) ∧
        pairs = series.Values.map
          (fun p => (⟨ModelTime.Unix p.Timestamp, p.Value⟩ : openapi.ErrorBudgetPair))) := by
  constructor
  · intro h
    simp only [GetObjectiveErrorBudget, if_pos h]
  · intro series hm
    subst hm
    obtain ⟨out, hout, hlen, hget⟩ :=
      budgetSeries_spec series.Values 0
        (List.replicate series.Values.length ⟨0, F64.zero⟩) (by simp)
    have hmap : out = series.Values.map
        (fun p => (⟨ModelTime.Unix p.Timestamp, p.Value⟩ : openapi.ErrorBudgetPair)) := by
      apply List.ext_getElem?
      intro k
      rw [hget k, List.getElem?_map]
      by_cases hk : k < series.Values.length
      · rw [if_pos (by omega)]; simp
      · rw [if_neg (by omega), List.getElem?_replicate, if_neg hk,
          List.getElem?_eq_none (by omega)]
        rfl
    refine ⟨out, ?_, ?_, ?_, hmap⟩
    · simp only [GetObjectiveErrorBudget, List.length_singleton, ne_eq,
        not_true_eq_false, if_false, List.head?_cons, budgetMatrix, hout]
    · rw [hlen, List.length_replicate]
    · intro i p hp
      rw [hmap, List.getElem?_map, hp]
      rfl

/-- Witness for C7: an empty matrix is `no data`; a matrix of one series of
two samples gives two pairs. -/
theorem GetObjectiveErrorBudget_matrix_witness :
    (([] : List SampleStream).length ≠ 1 ∧
      GetObjectiveErrorBudget (.ok ⟨"api", F64.ofFrac 99 100, 0, .ok []⟩)
        (.ok (.matrix [])) = some (⟨StatusNotFound, none⟩, some "no data")) ∧
    ([witnessSeries] = [witnessSeries] ∧
      ∃ pairs : List openapi.ErrorBudgetPair,
        GetObjectiveErrorBudget (.ok ⟨"api", F64.ofFrac 99 100, 0, .ok []⟩)
          (.ok (.matrix [witnessSeries])) = some (⟨StatusOK, some pairs⟩, none) ∧
        pairs.length = 2) := by
  refine ⟨⟨by decide, ?_⟩, rfl, ?_⟩
  · exact (GetObjectiveErrorBudget_matrix ⟨"api", F64.ofFrac 99 100, 0, .ok []⟩ []).1
      (by decide)
  · obtain ⟨pairs, h1, h2, _⟩ :=
      (GetObjectiveErrorBudget_matrix ⟨"api", F64.ofFrac 99 100, 0, .ok []⟩
        [witnessSeries]).2 witnessSeries rfl
    exact ⟨pairs, h1, h2⟩

/-! ### The objective status -/

set_option maxRecDepth 100000 in
/-- The arithmetic of `F64` on two familiar cases: `0.1 + 0.2` is
`0.30000000000000004`, one unit in the last place above `0.3`, and `1 / 3`
rounds to `6004799503160661 * 2^-54`. -/
theorem F64.add_tenth_fifth :
    F64.add (F64.ofFrac 1 10) (F64.ofFrac 2 10) = F64.fin false 5404319552844596 (-54) ∧
    F64.ofFrac 3 10 = F64.fin false 5404319552844595 (-54) ∧
    F64.div (F64.ofInt 1) (F64.ofInt 3) = F64.fin false 6004799503160661 (-54) := by
  refine ⟨by decide, by decide, by decide⟩

/-- The first loop leaves the value of the last sample in `Total`, and the
previous `Total` when there is no sample. -/
theorem statusTotal_last (vec : List Sample) (status : openapi.ObjectiveStatus) :
    statusTotal status vec =
      ⟨⟨status.Availability.Percentage,
        (vec.getLast?.map (fun v => v.Value)).getD status.Availability.Total,
        status.Availability.Errors⟩, status.Budget⟩ := by
  induction vec using List.reverseRecOn with
  | nil => rfl
  | append_singleton l a ih =>
    unfold statusTotal at ih ⊢
    rw [List.foldl_append, ih]
    simp

/-- The second loop leaves the value of the last sample in `Errors`, and the
previous `Errors` when there is no sample. -/
theorem statusErrors_last (vec : List Sample) (status : openapi.ObjectiveStatus) :
    statusErrors status vec =
      ⟨⟨status.Availability.Percentage, status.Availability.Total,
        (vec.getLast?.map (fun v => v.Value)).getD status.Availability.Errors⟩,
        status.Budget⟩ := by
  induction vec using List.reverseRecOn with
  | nil => rfl
  | append_singleton l a ih =>
    unfold statusErrors at ih ⊢
    rw [List.foldl_append, ih]
    simp

set_option maxRecDepth 100000 in
set_option exponentiation.threshold 3000 in
/-- C9 as stated fails: with target 0.99, total 1000 and errors 10 the handler
answers OK, but `Budget.Total` is not 0.01, `Budget.Remaining` is not 0 and
`Budget.Max` is not 10 under the comparison `==` of `float64`. -/
theorem GetObjectiveStatus_example_not_exact :
    ∃ status : openapi.ObjectiveStatus,
      GetObjectiveStatus (.ok witnessObjective) (.ok (witnessVector 1000))
        (.ok (witnessVector 10)) = some (⟨StatusOK, some status⟩, none) ∧
      F64.beq status.Budget.Total (F64.ofFrac 1 100) = false ∧
      F64.beq status.Budget.Remaining (F64.ofInt 0) = false ∧
      F64.beq status.Budget.Max (F64.ofInt 10) = false :=
  ⟨_, rfl, by decide, by decide, by decide⟩

set_option maxRecDepth 100000 in
set_option exponentiation.threshold 3000 in
/-- C9, amended: given the two instant vectors and the target,
`GetObjectiveStatus` answers OK; total and errors are the value of the last
sample of each vector (0 for an empty vector), and the other fields are the
`float64` results of `1 - errors/total`, `1 - target`,
`((1 - target) - errors/total) / (1 - target)` and `(1 - target) * total`.
With total 100 and errors 0 the percentage is exactly 1. With target 0.99,
total 1000 and errors 10 the budget total is `5764607523034240 * 2^-59`
(0.010000000000000009, five units in the last place above 0.01), the remaining
budget is `8796093022207992 * 2^-103` (about 8.67e-16) and the maximum is
`5629499534213125 * 2^-49` (10.000000000000009). -/
theorem GetObjectiveStatus_spec :
    (∀ (objective : slo.Objective) (vt ve : List Sample),
      ∃ status : openapi.ObjectiveStatus,
        GetObjectiveStatus (.ok objective) (.ok (.vector vt)) (.ok (.vector ve)) =
          some (⟨StatusOK, some status⟩, none) ∧
        status.Availability.Total = (vt.getLast?.map (fun v => v.Value)).getD F64.zero ∧
        status.Availability.Errors = (ve.getLast?.map (fun v => v.Value)).getD F64.zero ∧
        status.Availability.Percentage =
          F64.sub (F64.ofInt 1)
            (F64.div status.Availability.Errors status.Availability.Total) ∧
        status.Budget.Total = F64.sub (F64.ofInt 1) objective.Target ∧
        status.Budget.Remaining =
          F64.div
            (F64.sub status.Budget.Total
              (F64.div status.Availability.Errors status.Availability.Total))
            status.Budget.Total ∧
        status.Budget.Max = F64.mul status.Budget.Total status.Availability.Total) ∧
    (∃ status : openapi.ObjectiveStatus,
      GetObjectiveStatus (.ok witnessObjective) (.ok (witnessVector 100))
        (.ok (witnessVector 0)) = some (⟨StatusOK, some status⟩, none) ∧
      status.Availability.Percentage = F64.ofInt 1) ∧
    (∃ status : openapi.ObjectiveStatus,
      GetObjectiveStatus (.ok witnessObjective) (.ok (witnessVector 1000))
        (.ok (witnessVector 10)) = some (⟨StatusOK, some status⟩, none) ∧
      status.Budget.Total = F64.fin false 5764607523034240 (-59) ∧
      status.Budget.Remaining = F64.fin false 8796093022207992 (-103) ∧
      status.Budget.Max = F64.fin false 5629499534213125 (-49)) := by
  refine ⟨?_, ⟨_, rfl, by decide⟩, ⟨_, rfl, by decide, by decide, by decide⟩⟩
  intro objective vt ve
  refine ⟨_, rfl, ?_, ?_, ?_, rfl, ?_, ?_⟩
  · simp only [statusArith, statusErrors_last, statusTotal_last]
  · simp only [statusArith, statusErrors_last, statusTotal_last]
  · simp only [statusArith, statusErrors_last, statusTotal_last]
  · simp only [statusArith, statusErrors_last, statusTotal_last]
  · simp only [statusArith, statusErrors_last, statusTotal_last]

/-! ### The RED tables -/

/-- A nested assignment inside the table replaces one cell of one row. -/
theorem setCell?_some (values : List (List F64)) (j k : Nat) (v : F64)
    (row : List F64) (hrow : values[j]? = some row) (hk : k < row.length) :
    setCell? values j k v = some (values.set j (row.set k v)) := by
  simp only [setCell?, hrow, setAt?, if_pos hk]

/-- A nested assignment that succeeds keeps the number of rows. -/
theorem setCell?_length (values out : List (List F64)) (j k : Nat) (v : F64)
    (h : setCell? values j k v = some out) : out.length = values.length := by
  unfold setCell? at h
  split at h
  · cases h
  · split at h
    · cases h
    · cases h; rw [List.length_set]

/-- A nested assignment past the last row panics. -/
theorem setCell?_none (values : List (List F64)) (j k : Nat) (v : F64)
    (hj : values.length ≤ j) : setCell? values j k v = none := by
  simp only [setCell?, List.getElem?_eq_none hj]

/-- One step of the inner loop that succeeds keeps the number of rows. -/
theorem redCell_length (n i j : Nat) (pair : SamplePair) (values out : List (List F64))
    (h : redCell n i j pair values = some out) : out.length = values.length := by
  unfold redCell at h
  by_cases hi : i = 0
  · simp only [hi, if_true] at h
    unfold setAt? at h
    split_ifs at h with hj
    simp only at h
    split at h
    · cases h
    · rename_i v1 h1
      split at h1
      · cases h1
      · rename_i v2 h2
        rw [setCell?_length _ _ _ _ _ h, setCell?_length _ _ _ _ _ h1,
          setCell?_length _ _ _ _ _ h2, List.length_set]
  · simp only [hi, if_false] at h
    exact setCell?_length _ _ _ _ _ h

/-- One step of the inner loop past the last row panics. -/
theorem redCell_none (n i j : Nat) (pair : SamplePair) (values : List (List F64))
    (hj : values.length ≤ j) : redCell n i j pair values = none := by
  unfold redCell
  by_cases hi : i = 0
  · simp only [hi, if_true, setAt?, if_neg (not_lt.mpr hj)]
  · simp only [hi, if_false, setCell?_none _ _ _ _ hj]

/-- The inner loop, when it succeeds, keeps the number of rows. -/
theorem redSeries_length (n i : Nat) (pairs : List SamplePair) :
    ∀ (j : Nat) (values out : List (List F64)),
      redSeries n i j pairs values = some out → out.length = values.length := by
  induction pairs with
  | nil => intro j values out h; simp only [redSeries] at h; cases h; rfl
  | cons p rest ih =>
    intro j values out h
    simp only [redSeries] at h
    split at h
    · cases h
    · rename_i v1 h1
      rw [ih _ _ _ h, redCell_length _ _ _ _ _ _ h1]

/-- The inner loop panics when the series has samples past the last row. -/
theorem redSeries_none (n i : Nat) (pairs : List SamplePair) :
    ∀ (j : Nat) (values : List (List F64)), j ≤ values.length →
      values.length < j + pairs.length → redSeries n i j pairs values = none := by
  induction pairs with
  | nil => intro j values h1 h2; simp at h2; omega
  | cons p rest ih =>
    intro j values h1 h2
    simp only [List.length_cons] at h2
    simp only [redSeries]
    split
    · rfl
    · rename_i v1 hv1
      have hlen := redCell_length _ _ _ _ _ _ hv1
      have hj : j < values.length := by
        by_contra hcon
        rw [redCell_none n i j p values (by omega)] at hv1
        cases hv1
      exact ih (j + 1) v1 (by omega) (by omega)

/-- The outer loop panics when one of the series has more samples than the
table has rows. -/
theorem redMatrix_none (labelString : LabelSet → String) (n : Nat)
    (rest : List SampleStream) :
    ∀ (i : Nat) (acc : List String × List (List F64)),
      (∃ s ∈ rest, acc.2.length < s.Values.length) →
      redMatrix labelString n i rest acc = none := by
  induction rest with
  | nil => intro i acc h; simp at h
  | cons m rest ih =>
    intro i acc h
    simp only [redMatrix]
    split
    · rfl
    · rename_i labels _
      split
      · rfl
      · rename_i v1 hv1
        have hlen := redSeries_length _ _ _ _ _ _ hv1
        apply ih
        obtain ⟨s, hs, hlt⟩ := h
        rcases List.mem_cons.mp hs with rfl | hs
        · rw [redSeries_none n i s.Values 0 acc.2 (Nat.zero_le _) (by omega)] at hv1
          cases hv1
        · exact ⟨s, hs, by simpa [hlen] using hlt⟩

/-- The cells of a table after one of its rows is replaced. -/
theorem cellAt_set (values : List (List F64)) (j : Nat) (row : List F64) (k c : Nat)
    (hj : j < values.length) :
    cellAt (values.set j row) k c = if k = j then row[c]? else cellAt values k c := by
  unfold cellAt
  by_cases hk : k = j
  · subst hk
    rw [if_pos rfl, List.getElem?_set_self hj]
    rfl
  · rw [if_neg hk, List.getElem?_set_ne (Ne.symm hk)]

/-- The first series: one step of the inner loop writes the row of its
sample. -/
theorem redCell_first (n j : Nat) (pair : SamplePair) (values : List (List F64))
    (hn : 1 ≤ n) (hj : j < values.length) :
    redCell n 0 j pair values = some (values.set j (firstRow n pair)) := by
  have h0 : (values.set j (List.replicate (n + 1) F64.zero))[j]? =
      some (List.replicate (n + 1) F64.zero) := List.getElem?_set_self hj
  have h1 : ∀ row : List F64, (values.set j row)[j]? = some row :=
    fun row => List.getElem?_set_self hj
  unfold redCell
  simp only [if_true, setAt?, if_pos hj]
  rw [setCell?_some _ j 0 _ _ h0 (by simp), List.set_set]
  simp only
  rw [setCell?_some _ j 1 _ _ (h1 _) (by simp; omega), List.set_set]
  simp only
  rw [setCell?_some _ j (0 + 1) _ _ (h1 _) (by simp; omega), List.set_set]
  rfl

/-- The first series: the inner loop writes the rows of its samples and leaves
the other rows alone. -/
theorem redSeries_first (n : Nat) (hn : 1 ≤ n) (pairs : List SamplePair) :
    ∀ (j : Nat) (values : List (List F64)), j + pairs.length ≤ values.length →
      ∃ out, redSeries n 0 j pairs values = some out ∧
        out.length = values.length ∧
        ∀ k : Nat, out[k]? =
          if j ≤ k ∧ k < j + pairs.length then (pairs[k - j]?).map (firstRow n)
          else values[k]? := by
  induction pairs with
  | nil =>
    intro j values _
    refine ⟨values, rfl, rfl, ?_⟩
    intro k
    rw [if_neg]
    simp
  | cons p rest ih =>
    intro j values hlen
    simp only [List.length_cons] at hlen
    have hj : j < values.length := by omega
    obtain ⟨out, hout, hlen2, hget⟩ :=
      ih (j + 1) (values.set j (firstRow n p)) (by rw [List.length_set]; omega)
    refine ⟨out, ?_, ?_, ?_⟩
    · simp only [redSeries, redCell_first n j p values hn hj]
      exact hout
    · rw [hlen2, List.length_set]
    · intro k
      rw [hget k]
      simp only [List.length_cons]
      by_cases h1 : j + 1 ≤ k ∧ k < j + 1 + rest.length
      · rw [if_pos h1, if_pos (by omega)]
        have : k - j = (k - (j + 1)) + 1 := by omega
        rw [this, List.getElem?_cons_succ]
      · rw [if_neg h1]
        by_cases h2 : k = j
        · subst h2
          rw [if_pos (by omega), List.getElem?_set_self hj]
          simp
        · rw [if_neg (by omega), List.getElem?_set_ne (Ne.symm h2)]

/-- A later series: one step of the inner loop writes one cell. -/
theorem redCell_later (n i j : Nat) (pair : SamplePair) (values : List (List F64))
    (row : List F64) (hi : i ≠ 0) (hrow : values[j]? = some row)
    (hc : i + 1 < row.length) :
    redCell n i j pair values = some (values.set j (row.set (i + 1) pair.Value)) := by
  unfold redCell
  simp only [if_neg hi]
  exact setCell?_some values j (i + 1) pair.Value row hrow hc

/-- A later series: the inner loop writes the cells of its samples in column
`i + 1` and leaves every other cell and the shape of the table alone. -/
theorem redSeries_later (n i : Nat) (hi : i ≠ 0) (hin : i + 1 ≤ n)
    (pairs : List SamplePair) :
    ∀ (j : Nat) (values : List (List F64)),
      (∀ (k : Nat) (row : List F64), values[k]? = some row → row.length = n + 1) →
      j + pairs.length ≤ values.length →
      ∃ out, redSeries n i j pairs values = some out ∧
        out.length = values.length ∧
        (∀ (k : Nat) (row : List F64), out[k]? = some row → row.length = n + 1) ∧
        ∀ k c : Nat, cellAt out k c =
          if c = i + 1 ∧ j ≤ k ∧ k < j + pairs.length then
            (pairs[k - j]?).map (fun p => p.Value)
          else cellAt values k c := by
  induction pairs with
  | nil =>
    intro j values hrows _
    refine ⟨values, rfl, rfl, hrows, ?_⟩
    intro k c
    rw [if_neg]
    simp
  | cons p rest ih =>
    intro j values hrows hlen
    simp only [List.length_cons] at hlen
    have hj : j < values.length := by omega
    have hrow : values[j]? = some values[j] := List.getElem?_eq_getElem hj
    have hrowlen : values[j].length = n + 1 := hrows j _ hrow
    have hrows2 : ∀ (k : Nat) (row : List F64),
        (values.set j (values[j].set (i + 1) p.Value))[k]? = some row →
          row.length = n + 1 := by
      intro k row hk
      by_cases hkj : k = j
      · subst hkj
        rw [List.getElem?_set_self hj] at hk
        cases hk
        rw [List.length_set, hrowlen]
      · rw [List.getElem?_set_ne (Ne.symm hkj)] at hk
        exact hrows k row hk
    obtain ⟨out, hout, hlen2, hrows3, hget⟩ :=
      ih (j + 1) (values.set j (values[j].set (i + 1) p.Value)) hrows2
        (by rw [List.length_set]; omega)
    refine ⟨out, ?_, ?_, hrows3, ?_⟩
    · simp only [redSeries,
        redCell_later n i j p values values[j] hi hrow (by omega)]
      exact hout
    · rw [hlen2, List.length_set]
    · intro k c
      rw [hget k c, cellAt_set _ _ _ _ _ hj]
      simp only [List.length_cons]
      by_cases h1 : c = i + 1 ∧ j + 1 ≤ k ∧ k < j + 1 + rest.length
      · rw [if_pos h1, if_pos (by omega)]
        have : k - j = (k - (j + 1)) + 1 := by omega
        rw [this, List.getElem?_cons_succ]
      · rw [if_neg h1]
        by_cases h2 : k = j
        · subst h2
          rw [if_pos rfl]
          by_cases h3 : c = i + 1
          · subst h3
            rw [if_pos (by omega), List.getElem?_set_self (by omega)]
            simp
          · rw [if_neg (by omega), List.getElem?_set_ne (Ne.symm h3)]
            unfold cellAt
            rw [hrow]
            rfl
        · rw [if_neg h2, if_neg (by omega)]

/-- The later series: the outer loop writes one label and one column per
series and leaves everything else alone. -/
theorem redMatrix_later (labelString : LabelSet → String) (n : Nat)
    (rest : List SampleStream) :
    ∀ (i : Nat) (labels : List String) (values : List (List F64)),
      i ≠ 0 → i + rest.length ≤ n → i + rest.length ≤ labels.length →
      (∀ (k : Nat) (row : List F64), values[k]? = some row → row.length = n + 1) →
      (∀ s ∈ rest, s.Values.length ≤ values.length) →
      ∃ (labels2 : List String) (values2 : List (List F64)),
        redMatrix labelString n i rest (labels, values) = some (labels2, values2) ∧
        labels2.length = labels.length ∧
        values2.length = values.length ∧
        (∀ (k : Nat) (row : List F64), values2[k]? = some row → row.length = n + 1) ∧
        (∀ k : Nat, labels2[k]? =
          if i ≤ k ∧ k < i + rest.length then
            (rest[k - i]?).map (fun s => labelString s.Metric)
          else labels[k]?) ∧
        (∀ (k : Nat) (s : SampleStream) (j : Nat) (p : SamplePair),
          rest[k]? = some s → s.Values[j]? = some p →
          cellAt values2 j (i + k + 1) = some p.Value) ∧
        (∀ j c : Nat,
          (∀ (k : Nat) (s : SampleStream), rest[k]? = some s → c = i + k + 1 →
            s.Values.length ≤ j) →
          cellAt values2 j c = cellAt values j c) := by
  induction rest with
  | nil =>
    intro i labels values _ _ _ hrows _
    refine ⟨labels, values, rfl, rfl, rfl, hrows, ?_, ?_, ?_⟩
    · intro k
      rw [if_neg]
      simp
    · intro k s j p hk
      simp at hk
    · intro j c _
      rfl
  | cons m rest ih =>
    intro i labels values hi hin hil hrows hshort
    simp only [List.length_cons] at hin hil
    have hilt : i < labels.length := by omega
    obtain ⟨values1, hser, hlen1, hrows1, hcell1⟩ :=
      redSeries_later n i hi (by omega) m.Values 0 values hrows
        (by simpa using hshort m (List.mem_cons_self _ _))
    obtain ⟨labels2, values2, hrun, hl2, hv2, hrows2, hlab2, hwritten, hkept⟩ :=
      ih (i + 1) (labels.set i (labelString m.Metric)) values1 (by omega) (by omega)
        (by rw [List.length_set]; omega) hrows1
        (fun s hs => by rw [hlen1]; exact hshort s (List.mem_cons_of_mem _ hs))
    refine ⟨labels2, values2, ?_, ?_, ?_, hrows2, ?_, ?_, ?_⟩
    · simp only [redMatrix, setAt?, if_pos hilt, hser]
      exact hrun
    · rw [hl2, List.length_set]
    · rw [hv2, hlen1]
    · intro k
      rw [hlab2 k]
      simp only [List.length_cons]
      by_cases h1 : i + 1 ≤ k ∧ k < i + 1 + rest.length
      · rw [if_pos h1, if_pos (by omega)]
        have : k - i = (k - (i + 1)) + 1 := by omega
        rw [this, List.getElem?_cons_succ]
      · rw [if_neg h1]
        by_cases h2 : k = i
        · subst h2
          rw [if_pos (by omega), List.getElem?_set_self hilt]
          simp
        · rw [if_neg (by omega), List.getElem?_set_ne (Ne.symm h2)]
    · intro k s j p hk hp
      cases k with
      | zero =>
        simp only [List.getElem?_cons_zero, Option.some.injEq] at hk
        subst hk
        have hj : j < m.Values.length := by
          by_contra hcon
          rw [List.getElem?_eq_none (by omega)] at hp
          cases hp
        rw [hkept j (i + 0 + 1) (fun k s _ hc => by omega), hcell1 j (i + 0 + 1),
          if_pos ⟨by omega, by omega, by omega⟩]
        simp only [Nat.sub_zero, hp, Option.map_some']
      | succ k =>
        simp only [List.getElem?_cons_succ] at hk
        have := hwritten k s j p hk hp
        rw [show i + (k + 1) + 1 = i + 1 + k + 1 by omega]
        exact this
    · intro j c hnot
      rw [hkept j c (fun k s hk hc =>
        hnot (k + 1) s (by simpa using hk) (by omega)), hcell1 j c]
      by_cases h1 : c = i + 1 ∧ 0 ≤ j ∧ j < 0 + m.Values.length
      · have := hnot 0 m (by simp) (by omega)
        omega
      · rw [if_neg h1]

/-- The cells of the row written for a sample of the first series. -/
theorem firstRow_cells (n : Nat) (hn : 1 ≤ n) (p : SamplePair) :
    (firstRow n p).length = n + 1 ∧
    (firstRow n p)[0]? = some (F64.ofInt (ModelTime.Unix p.Timestamp)) ∧
    (firstRow n p)[1]? = some p.Value ∧
    ∀ c : Nat, 2 ≤ c → c ≤ n → (firstRow n p)[c]? = some F64.zero := by
  unfold firstRow
  refine ⟨by simp, ?_, ?_, ?_⟩
  · rw [List.getElem?_set_ne (by omega), List.getElem?_set_ne (by omega),
      List.getElem?_set_self (by simp)]
  · rw [List.getElem?_set_self (by simp; omega)]
  · intro c h2 hc
    rw [List.getElem?_set_ne (by omega), List.getElem?_set_ne (by omega),
      List.getElem?_set_ne (by omega), List.getElem?_replicate, if_pos (by omega)]

/-- The table of a matrix none of whose series has more samples than the
first: the transform answers OK with one label per series, one row per sample
of the first series and one column per series after the timestamp column;
cells that a shorter series does not reach hold zero. -/
theorem redTransform_ok (labelString : LabelSet → String) (first : SampleStream)
    (rest : List SampleStream)
    (hshort : ∀ s ∈ rest, s.Values.length ≤ first.Values.length) :
    ∃ (labels : List String) (values : List (List F64)),
      redTransform labelString (.ok (.matrix (first :: rest))) =
        some (⟨StatusOK, some ⟨labels, values⟩⟩, none) ∧
      labels = (first :: rest).map (fun s => labelString s.Metric) ∧
      values.length = first.Values.length ∧
      (∀ (k : Nat) (row : List F64), values[k]? = some row →
        row.length = (first :: rest).length + 1) ∧
      (∀ (j : Nat) (p : SamplePair), first.Values[j]? = some p →
        cellAt values j 0 = some (F64.ofInt (ModelTime.Unix p.Timestamp))) ∧
      (∀ (i : Nat) (s : SampleStream) (j : Nat) (p : SamplePair),
        (first :: rest)[i]? = some s → s.Values[j]? = some p →
        cellAt values j (i + 1) = some p.Value) ∧
      (∀ (i : Nat) (s : SampleStream) (j : Nat),
        (first :: rest)[i]? = some s → s.Values.length ≤ j →
        j < first.Values.length → cellAt values j (i + 1) = some F64.zero) := by
  have hn : 1 ≤ rest.length + 1 := by omega
  -- the first series
  obtain ⟨values0, hser0, hlen0, hget0⟩ :=
    redSeries_first (rest.length + 1) hn first.Values 0
      (List.replicate first.Values.length []) (by simp)
  simp only [List.length_replicate] at hlen0
  have hrow0 : ∀ (k : Nat), values0[k]? = (first.Values[k]?).map
      (firstRow (rest.length + 1)) := by
    intro k
    rw [hget0 k]
    by_cases hk : k < first.Values.length
    · rw [if_pos (by omega)]; rfl
    · rw [if_neg (by omega), List.getElem?_replicate, if_neg hk,
        List.getElem?_eq_none (by omega)]
      rfl
  have hrows0 : ∀ (k : Nat) (row : List F64), values0[k]? = some row →
      row.length = rest.length + 1 + 1 := by
    intro k row hk
    rw [hrow0 k] at hk
    cases hp : first.Values[k]? with
    | none => rw [hp] at hk; cases hk
    | some p =>
      rw [hp] at hk
      cases hk
      exact (firstRow_cells _ hn p).1
  have hcell0 : ∀ (j c : Nat) (p : SamplePair), first.Values[j]? = some p →
      cellAt values0 j c = (firstRow (rest.length + 1) p)[c]? := by
    intro j c p hp
    unfold cellAt
    rw [hrow0 j, hp]
    rfl
  -- the later series
  obtain ⟨labels2, values2, hrun, hl2, hv2, hrows2, hlab2, hwritten, hkept⟩ :=
    redMatrix_later labelString (rest.length + 1) rest 1
      ((List.replicate (rest.length + 1) "").set 0 (labelString first.Metric)) values0
      (by omega) (by omega) (by simp; omega) hrows0
      (fun s hs => by rw [hlen0]; exact hshort s hs)
  refine ⟨labels2, values2, ?_, ?_, ?_, ?_, ?_, ?_, ?_⟩
  · simp only [redTransform, List.length_cons, Nat.add_one_ne_zero, if_false,
      List.head?_cons, redMatrix, setAt?, List.length_replicate, Nat.zero_lt_succ,
      if_true, hser0, Nat.zero_add, hrun]
  · apply List.ext_getElem?
    intro k
    rw [hlab2 k, List.getElem?_map]
    cases k with
    | zero =>
      rw [if_neg (by omega), List.getElem?_set_self (by simp)]
      simp
    | succ k =>
      by_cases hk : k < rest.length
      · rw [if_pos (by omega)]
        simp
      · rw [if_neg (by omega), List.getElem?_set_ne (by omega),
          List.getElem?_replicate, if_neg (by omega), List.getElem?_cons_succ,
          List.getElem?_eq_none (by omega)]
        rfl
  · rw [hv2, hlen0]
  · intro k row hk
    exact hrows2 k row hk
  · intro j p hp
    rw [hkept j 0 (fun k s _ hc => by omega), hcell0 j 0 p hp]
    exact (firstRow_cells _ hn p).2.1
  · intro i s j p hi hp
    cases i with
    | zero =>
      simp only [List.getElem?_cons_zero, Option.some.injEq] at hi
      subst hi
      rw [hkept j (0 + 1) (fun k s _ hc => by omega), hcell0 j (0 + 1) p hp]
      exact (firstRow_cells _ hn p).2.2.1
    | succ i =>
      simp only [List.getElem?_cons_succ] at hi
      have := hwritten i s j p hi hp
      rw [show i + 1 + 1 = 1 + i + 1 by omega]
      exact this
  · intro i s j hi hlen hj
    cases i with
    | zero =>
      simp only [List.getElem?_cons_zero, Option.some.injEq] at hi
      subst hi
      omega
    | succ i =>
      simp only [List.getElem?_cons_succ] at hi
      have hirest : i < rest.length := by
        by_contra hcon
        rw [List.getElem?_eq_none (by omega)] at hi
        cases hi
      have hkeep : cellAt values2 j (i + 1 + 1) = cellAt values0 j (i + 1 + 1) := by
        apply hkept
        intro k s2 hk hc
        have hki : k = i := by omega
        subst hki
        rw [hi] at hk
        cases hk
        exact hlen
      rw [hkeep, hcell0 j (i + 1 + 1) first.Values[j] (List.getElem?_eq_getElem hj)]
      exact (firstRow_cells _ hn _).2.2.2 (i + 1 + 1) (by omega) (by omega)

/-- The transform panics exactly when a later series has more samples than
the first. -/
theorem redTransform_none_iff (labelString : LabelSet → String) (first : SampleStream)
    (rest : List SampleStream) :
    redTransform labelString (.ok (.matrix (first :: rest))) = none ↔
      ∃ s ∈ rest, first.Values.length < s.Values.length := by
  constructor
  · intro hnone
    by_contra hcon
    have hshort : ∀ s ∈ rest, s.Values.length ≤ first.Values.length := by
      intro s hs
      by_contra hlt
      exact hcon ⟨s, hs, by omega⟩
    obtain ⟨labels, values, hrun, _⟩ := redTransform_ok labelString first rest hshort
    rw [hrun] at hnone
    cases hnone
  · intro hlong
    have hn : 1 ≤ rest.length + 1 := by omega
    obtain ⟨values0, hser0, hlen0, _⟩ :=
      redSeries_first (rest.length + 1) hn first.Values 0
        (List.replicate first.Values.length []) (by simp)
    simp only [List.length_replicate] at hlen0
    have hrest := redMatrix_none labelString (rest.length + 1) rest 1
      ((List.replicate (rest.length + 1) "").set 0 (labelString first.Metric), values0)
      (by simpa [hlen0] using hlong)
    simp only [redTransform, List.length_cons, Nat.add_one_ne_zero, if_false,
      List.head?_cons, redMatrix, setAt?, List.length_replicate, Nat.zero_lt_succ,
      if_true, hser0, Nat.zero_add, hrest]

/-- C8: for every matrix of `n ≥ 1` series that all carry the same `m`
timestamps, `GetREDRequests` and `GetREDErrors` answer OK with `n` labels,
`labels[i]` being the string form of the label set of series `i`, and with a
table of exactly `m` rows, each of length `n + 1`, where `values[j][0]` is the
Unix second of the `j`-th timestamp of the first series (as a `float64`) and
`values[j][i+1]` is the value of the `j`-th sample of series `i`. -/
theorem GetRED_table (labelString : LabelSet → String) (objective : slo.Objective)
    (matrix : List SampleStream) (grid : List Int) (hn : 1 ≤ matrix.length)
    (hgrid : ∀ s ∈ matrix, s.Values.map (fun p => p.Timestamp) = grid) :
    ∃ (labels : List String) (values : List (List F64)),
      GetREDRequests labelString (.ok objective) (.ok (.matrix matrix)) =
        some (⟨StatusOK, some ⟨labels, values⟩⟩, none) ∧
      GetREDErrors labelString (.ok objective) (.ok (.matrix matrix)) =
        some (⟨StatusOK, some ⟨labels, values⟩⟩, none) ∧
      labels.length = matrix.length ∧
      (∀ (i : Nat) (s : SampleStream), matrix[i]? = some s →
        labels[i]? = some (labelString s.Metric)) ∧
      values.length = grid.length ∧
      (∀ (j : Nat) (row : List F64), values[j]? = some row →
        row.length = matrix.length + 1) ∧
      (∀ (first : SampleStream) (j : Nat) (p : SamplePair), matrix[0]? = some first →
        first.Values[j]? = some p →
        cellAt values j 0 = some (F64.ofInt (ModelTime.Unix p.Timestamp))) ∧
      (∀ (i : Nat) (s : SampleStream) (j : Nat), matrix[i]? = some s → j < grid.length →
        ∃ p : SamplePair, s.Values[j]? = some p ∧
          cellAt values j (i + 1) = some p.Value) := by
  match matrix, hn, hgrid with
  | first :: rest, _, hgrid =>
    have hlen : ∀ s ∈ first :: rest, s.Values.length = grid.length := by
      intro s hs
      rw [← hgrid s hs, List.length_map]
    have hshort : ∀ s ∈ rest, s.Values.length ≤ first.Values.length := by
      intro s hs
      rw [hlen s (List.mem_cons_of_mem _ hs), hlen first (List.mem_cons_self _ _)]
    obtain ⟨labels, values, hrun, hlabels, hrows, hwidth, htime, hcell, _⟩ :=
      redTransform_ok labelString first rest hshort
    refine ⟨labels, values, hrun, hrun, ?_, ?_, ?_, hwidth, ?_, ?_⟩
    · rw [hlabels, List.length_map]
    · intro i s hi
      rw [hlabels, List.getElem?_map, hi]
      rfl
    · rw [hrows, hlen first (List.mem_cons_self _ _)]
    · intro f j p hf hp
      simp only [List.getElem?_cons_zero, Option.some.injEq] at hf
      subst hf
      exact htime j p hp
    · intro i s j hi hj
      have hs : s ∈ first :: rest := List.getElem?_mem hi
      have hjs : j < s.Values.length := by rw [hlen s hs]; exact hj
      exact ⟨s.Values[j], List.getElem?_eq_getElem hjs,
        hcell i s j _ hi (List.getElem?_eq_getElem hjs)⟩

/-- Witness for C8: two series on three shared timestamps give two labels and
three rows of length three. -/
theorem GetRED_table_witness :
    (1 ≤ [witnessSeriesA, witnessSeriesB].length ∧
      ∀ s ∈ [witnessSeriesA, witnessSeriesB],
        s.Values.map (fun p => p.Timestamp) = [1000, 2000, 3000]) ∧
    ∃ (labels : List String) (values : List (List F64)),
      GetREDRequests witnessLabelString (.ok witnessObjective)
        (.ok (.matrix [witnessSeriesA, witnessSeriesB])) =
          some (⟨StatusOK, some ⟨labels, values⟩⟩, none) ∧
      labels.length = 2 ∧ values.length = 3 ∧
      ∀ (j : Nat) (row : List F64), values[j]? = some row → row.length = 3 := by
  have hgrid : ∀ s ∈ [witnessSeriesA, witnessSeriesB],
      s.Values.map (fun p => p.Timestamp) = [1000, 2000, 3000] := by
    intro s hs
    simp only [List.mem_cons, List.mem_singleton, List.not_mem_nil, or_false] at hs
    rcases hs with rfl | rfl <;> rfl
  refine ⟨⟨by decide, hgrid⟩, ?_⟩
  obtain ⟨labels, values, h1, _, h3, _, h5, h6, _⟩ :=
    GetRED_table witnessLabelString witnessObjective [witnessSeriesA, witnessSeriesB]
      [1000, 2000, 3000] (by decide) hgrid
  exact ⟨labels, values, h1, h3, h5, h6⟩

/-- C10: in the table transform of `GetREDRequests` and `GetREDErrors`, for
every matrix with at least one series: when no series has more samples than
the first, no index is out of range, the handlers answer OK, and the cells a
shorter series does not cover are zero; when some later series has more
samples than the first, an index is out of range and the handlers panic
instead of answering. -/
theorem GetRED_index_range (labelString : LabelSet → String)
    (objective : slo.Objective) (first : SampleStream) (rest : List SampleStream) :
    ((∀ s ∈ first :: rest, s.Values.length ≤ first.Values.length) →
      ∃ (labels : List String) (values : List (List F64)),
        GetREDRequests labelString (.ok objective) (.ok (.matrix (first :: rest))) =
          some (⟨StatusOK, some ⟨labels, values⟩⟩, none) ∧
        GetREDErrors labelString (.ok objective) (.ok (.matrix (first :: rest))) =
          some (⟨StatusOK, some ⟨labels, values⟩⟩, none) ∧
        ∀ (i : Nat) (s : SampleStream) (j : Nat), (first :: rest)[i]? = some s →
          s.Values.length ≤ j → j < first.Values.length →
          cellAt values j (i + 1) = some F64.zero) ∧
    ((∃ s ∈ rest, first.Values.length < s.Values.length) →
      GetREDRequests labelString (.ok objective) (.ok (.matrix (first :: rest))) = none ∧
      GetREDErrors labelString (.ok objective) (.ok (.matrix (first :: rest))) =
        none) := by
  constructor
  · intro hshort
    obtain ⟨labels, values, hrun, _, _, _, _, _, hzero⟩ :=
      redTransform_ok labelString first rest
        (fun s hs => hshort s (List.mem_cons_of_mem _ hs))
    exact ⟨labels, values, hrun, hrun, hzero⟩
  · intro hlong
    have h := (redTransform_none_iff labelString first rest).mpr hlong
    exact ⟨h, h⟩

/-- Witness for C10: a one-sample series after a three-sample series leaves
zeros; a three-sample series after a one-sample series panics. -/
theorem GetRED_index_range_witness :
    ((∀ s ∈ [witnessSeriesA, witnessSeriesShort],
        s.Values.length ≤ witnessSeriesA.Values.length) ∧
      ∃ (labels : List String) (values : List (List F64)),
        GetREDRequests witnessLabelString (.ok witnessObjective)
          (.ok (.matrix [witnessSeriesA, witnessSeriesShort])) =
            some (⟨StatusOK, some ⟨labels, values⟩⟩, none) ∧
        cellAt values 2 2 = some F64.zero) ∧
    ((∃ s ∈ [witnessSeriesA], witnessSeriesShort.Values.length < s.Values.length) ∧
      GetREDErrors witnessLabelString (.ok witnessObjective)
        (.ok (.matrix [witnessSeriesShort, witnessSeriesA])) = none) := by
  have hshort : ∀ s ∈ [witnessSeriesA, witnessSeriesShort],
      s.Values.length ≤ witnessSeriesA.Values.length := by
    intro s hs
    simp only [List.mem_cons, List.mem_singleton, List.not_mem_nil, or_false] at hs
    rcases hs with rfl | rfl <;> decide
  have hlong : ∃ s ∈ [witnessSeriesA],
      witnessSeriesShort.Values.length < s.Values.length :=
    ⟨witnessSeriesA, List.mem_singleton_self _, by decide⟩
  refine ⟨⟨hshort, ?_⟩, hlong, ?_⟩
  · obtain ⟨labels, values, h1, _, h3⟩ :=
      (GetRED_index_range witnessLabelString witnessObjective witnessSeriesA
        [witnessSeriesShort]).1 hshort
    exact ⟨labels, values, h1, h3 1 witnessSeriesShort 2 rfl (by decide) (by decide)⟩
  · exact ((GetRED_index_range witnessLabelString witnessObjective witnessSeriesShort
      [witnessSeriesA]).2 hlong).2

end Pyrra
